import Mathlib

/-
Verification of the multi-CPU boot and initialization protocol of
src/hypervisor/setup.c (Jailhouse partitioning hypervisor).

The development has two layers.

Layer 1 (functional models): the bodies of the three init routines are
translated directly from the source as executable functions.  External
collaborators (paging backend, arch hooks, unit initializers) are passed in
as result oracles, since only their success/failure codes matter to setup.c.
  - the hypervisor-region backing loop of init_early (setup.c lines 78-94),
  - cpu_init (setup.c lines 100-175),
  - init_late (setup.c lines 177-215).

Layer 2 (protocol state machine): entry (setup.c lines 221-288) is embedded
as a small-step transition system over the shared state
(init_lock, master_cpu_id, entered_cpus, initialized_cpus, error, activate)
with one program counter per core.  The fallible bodies of
init_early/cpu_init/init_late appear there abstractly as nondeterministic
sequences of calls that each write the global error channel exactly as the
source does (init_early and init_late assign `error` per call and return on
the first non-zero result; cpu_init keeps a local `err` and performs a
single store `error = err` on its failure exit).  An inductive invariant
over reachable states settles the concurrency claims.
-/

namespace Jailhouse

/-- The page size used by the hypervisor (4 KiB). -/
def PAGE_SIZE : Nat := 4096

/-- PAGE_SIZE is positive; used for termination of the address-stepping loop. -/
theorem PAGE_SIZE_pos : 0 < PAGE_SIZE := by decide

/-- Flag bit JAILHOUSE_MEM_READ (read permission) of a memory region. -/
def JAILHOUSE_MEM_READ : Nat := 1

/-- The errno value EINVAL; setup.c reports failures as -EINVAL. -/
def EINVAL : Int := 22

/-- Sentinel INVALID_CPU_ID ((unsigned int)-1) that master_cpu_id is
initialized to before any CPU enters. -/
def INVALID_CPU_ID : Nat := 4294967295

/-- Translation of struct jailhouse_memory: physical start, virtual start,
size and permission flags of one memory region. -/
structure JailhouseMemory where
  phys_start : Nat
  virt_start : Nat
  size : Nat
  flags : Nat
deriving DecidableEq

/-- The hv_page value that one iteration of the init_early backing loop
(setup.c lines 84-93) passes to arch_map_memory_region: virt_start is the
current address inside the hypervisor region, flags is JAILHOUSE_MEM_READ,
and phys_start is the console page when the virtual console is enabled and
the slot address equals the console physical address, else the empty page. -/
def hv_page_at (virtual_console : Bool) (console_phys empty_phys virt : Nat) :
    JailhouseMemory :=
  { virt_start := virt
    phys_start :=
      if virtual_console = true ∧ virt = console_phys then console_phys
      else empty_phys
    size := PAGE_SIZE
    flags := JAILHOUSE_MEM_READ }

/-- Translation of the while loop of init_early (setup.c lines 84-94):
starting at virt and stepping by PAGE_SIZE up to hyp_end, build each hv_page,
call arch_map_memory_region (modelled by the oracle map_result), and abort
with the first non-zero result.  Returns the final value of `error` and the
list of regions passed to arch_map_memory_region, in call order. -/
def init_early_hv_loop (virtual_console : Bool) (console_phys empty_phys : Nat)
    (map_result : JailhouseMemory → Int) (virt hyp_end : Nat) :
    Int × List JailhouseMemory :=
  if virt < hyp_end then
    if map_result (hv_page_at virtual_console console_phys empty_phys virt) ≠ 0 then
      (map_result (hv_page_at virtual_console console_phys empty_phys virt),
        [hv_page_at virtual_console console_phys empty_phys virt])
    else
      ((init_early_hv_loop virtual_console console_phys empty_phys map_result
          (virt + PAGE_SIZE) hyp_end).1,
        hv_page_at virtual_console console_phys empty_phys virt ::
          (init_early_hv_loop virtual_console console_phys empty_phys map_result
            (virt + PAGE_SIZE) hyp_end).2)
  else (0, [])
termination_by hyp_end - virt
decreasing_by
  have hp := PAGE_SIZE_pos
  omega

/-- Unfolding of mapping a function over List.range (k+1) into its head and
shifted tail; used to align the page-loop recursion with the page index. -/
theorem range_map_shift {α : Type} (f : Nat → α) (k : Nat) :
    (List.range (k + 1)).map f = f 0 :: (List.range k).map (fun j => f (j + 1)) := by
  rw [List.range_succ_eq_map, List.map_cons, List.map_map]
  rfl

/-- When every arch_map_memory_region call succeeds, the init_early backing
loop over k pages returns error 0 and maps exactly one page per slot, in
address order. -/
theorem init_early_hv_loop_all_ok (virtual_console : Bool)
    (console_phys empty_phys : Nat) (map_result : JailhouseMemory → Int)
    (hmap : ∀ p, map_result p = 0) :
    ∀ (k virt : Nat),
      init_early_hv_loop virtual_console console_phys empty_phys map_result
          virt (virt + k * PAGE_SIZE) =
        (0, (List.range k).map fun j =>
          hv_page_at virtual_console console_phys empty_phys
            (virt + j * PAGE_SIZE)) := by
  intro k
  induction k with
  | zero =>
    intro virt
    rw [init_early_hv_loop]
    simp
  | succ k ih =>
    intro virt
    have hlt : virt < virt + (k + 1) * PAGE_SIZE := by
      have hp := PAGE_SIZE_pos
      have h1 : 0 < (k + 1) * PAGE_SIZE := Nat.mul_pos (Nat.succ_pos k) hp
      omega
    rw [init_early_hv_loop, if_pos hlt, hmap, if_neg (by norm_num)]
    have harith : virt + (k + 1) * PAGE_SIZE = (virt + PAGE_SIZE) + k * PAGE_SIZE := by
      ring
    rw [harith, ih (virt + PAGE_SIZE), range_map_shift]
    have h1 : virt + 0 * PAGE_SIZE = virt := by ring
    have h2 : ∀ j : Nat, virt + (j + 1) * PAGE_SIZE = (virt + PAGE_SIZE) + j * PAGE_SIZE := by
      intro j
      ring
    simp only [h1, h2]

/-- The init_early backing loop aborts on the first failing mapping: if the
calls for the first m slots succeed and the call for slot m fails, the loop
returns that error and has attempted exactly the first m+1 slots. -/
theorem init_early_hv_loop_abort (virtual_console : Bool)
    (console_phys empty_phys : Nat) (map_result : JailhouseMemory → Int) :
    ∀ (m k virt : Nat), m < k →
      map_result (hv_page_at virtual_console console_phys empty_phys
        (virt + m * PAGE_SIZE)) ≠ 0 →
      (∀ j, j < m → map_result (hv_page_at virtual_console console_phys empty_phys
        (virt + j * PAGE_SIZE)) = 0) →
      init_early_hv_loop virtual_console console_phys empty_phys map_result
          virt (virt + k * PAGE_SIZE) =
        (map_result (hv_page_at virtual_console console_phys empty_phys
            (virt + m * PAGE_SIZE)),
          (List.range (m + 1)).map fun j =>
            hv_page_at virtual_console console_phys empty_phys
              (virt + j * PAGE_SIZE)) := by
  intro m
  induction m with
  | zero =>
    intro k virt hm hfail hok
    have hlt : virt < virt + k * PAGE_SIZE := by
      have hp := PAGE_SIZE_pos
      have h1 : 0 < k * PAGE_SIZE := Nat.mul_pos hm hp
      omega
    have hf : map_result (hv_page_at virtual_console console_phys empty_phys virt) ≠ 0 := by
      simpa using hfail
    rw [init_early_hv_loop, if_pos hlt, if_pos hf]
    have h1 : virt + 0 * PAGE_SIZE = virt := by ring
    rw [show (1 : Nat) = 0 + 1 from rfl, range_map_shift]
    simp [h1]
  | succ m ih =>
    intro k virt hm hfail hok
    obtain ⟨k', rfl⟩ : ∃ k', k = k' + 1 := ⟨k - 1, by omega⟩
    have hmk : m < k' := by omega
    have hlt : virt < virt + (k' + 1) * PAGE_SIZE := by
      have hp := PAGE_SIZE_pos
      have h1 : 0 < (k' + 1) * PAGE_SIZE := Nat.mul_pos (Nat.succ_pos k') hp
      omega
    have h0 : map_result (hv_page_at virtual_console console_phys empty_phys virt) = 0 := by
      simpa using hok 0 (Nat.succ_pos m)
    rw [init_early_hv_loop, if_pos hlt, if_neg (by simp [h0])]
    have harith : virt + (k' + 1) * PAGE_SIZE = (virt + PAGE_SIZE) + k' * PAGE_SIZE := by
      ring
    have hshift : ∀ j : Nat, virt + (j + 1) * PAGE_SIZE = (virt + PAGE_SIZE) + j * PAGE_SIZE := by
      intro j
      ring
    have hfail' : map_result (hv_page_at virtual_console console_phys empty_phys
        ((virt + PAGE_SIZE) + m * PAGE_SIZE)) ≠ 0 := by
      rw [← hshift m]
      exact hfail
    have hok' : ∀ j, j < m → map_result (hv_page_at virtual_console console_phys
        empty_phys ((virt + PAGE_SIZE) + j * PAGE_SIZE)) = 0 := by
      intro j hj
      rw [← hshift j]
      exact hok (j + 1) (by omega)
    rw [harith, ih k' (virt + PAGE_SIZE) hmk hfail' hok']
    have hr := range_map_shift (fun j => hv_page_at virtual_console console_phys
      empty_phys (virt + j * PAGE_SIZE)) (m + 1)
    rw [hr]
    have h1 : virt + 0 * PAGE_SIZE = virt := by ring
    simp only [h1, hshift]

/-- One step of cpu_init that can fail: the identifiers record which external
call of setup.c lines 117-159 was made. -/
inductive CpuInitStep where
  | link_hvpt_base
  | link_hvpt_pgp_ro_buf
  | link_hvpt_console
  | create_percpu_map
  | arch_cpu_init
  | create_temp_map
deriving DecidableEq

/-- Observable outcome of one cpu_init call: the value stored to the shared
`error` on the failed exit (none when cpu_init succeeds and leaves `error`
untouched), whether initialized_cpus was incremented, whether the cell
pointer of the per-CPU record was assigned, and the external calls made. -/
structure CpuInitOut where
  err_write : Option Int
  initialized_increment : Bool
  cell_assigned : Bool
  steps : List CpuInitStep
deriving DecidableEq

/-- Modelled from the spec: cpu_id_valid is declared outside src/ (only its
caller is in setup.c); per the spec it validates the calling core's
identifier against the configured CPU set. -/
def cpu_id_valid (cpu_set : List Nat) (cpu_id : Nat) : Bool :=
  cpu_set.contains cpu_id

/-- Translation of cpu_init (setup.c lines 100-175).  `err` starts at
-EINVAL; an invalid cpu_id jumps to the failed exit immediately.  Each
fallible external call is modelled by its oracle result argument
(r_link_base for paging_create_hvpt_link at JAILHOUSE_BASE, r_link_pgp for
the CONFIG_PAGE_TABLE_PROTECTION link, r_link_console for the debug-console
link made when CON_IS_MMIO holds, r_percpu and r_temp for the two
paging_create calls, r_arch for arch_cpu_init); any non-zero result jumps to
the failed exit, which performs the single store `error = err`.  On success
initialized_cpus is incremented and `error` is not written. -/
def cpu_init (cpu_set : List Nat) (cpu_id : Nat)
    (page_table_protection con_is_mmio : Bool)
    (r_link_base r_link_pgp r_link_console r_percpu r_arch r_temp : Int) :
    CpuInitOut :=
  if ¬ cpu_id_valid cpu_set cpu_id = true then
    { err_write := some (-EINVAL), initialized_increment := false
      cell_assigned := false, steps := [] }
  else
    let s1 := [CpuInitStep.link_hvpt_base]
    if r_link_base ≠ 0 then ⟨some r_link_base, false, true, s1⟩
    else
      let s2 := s1 ++
        (if page_table_protection then [CpuInitStep.link_hvpt_pgp_ro_buf] else [])
      if page_table_protection = true ∧ r_link_pgp ≠ 0 then
        ⟨some r_link_pgp, false, true, s2⟩
      else
        let s3 := s2 ++
          (if con_is_mmio then [CpuInitStep.link_hvpt_console] else [])
        if con_is_mmio = true ∧ r_link_console ≠ 0 then
          ⟨some r_link_console, false, true, s3⟩
        else
          let s4 := s3 ++ [CpuInitStep.create_percpu_map]
          if r_percpu ≠ 0 then ⟨some r_percpu, false, true, s4⟩
          else
            let s5 := s4 ++ [CpuInitStep.arch_cpu_init]
            if r_arch ≠ 0 then ⟨some r_arch, false, true, s5⟩
            else
              let s6 := s5 ++ [CpuInitStep.create_temp_map]
              if r_temp ≠ 0 then ⟨some r_temp, false, true, s6⟩
              else ⟨none, true, true, s6⟩

/-- One externally visible action of init_late (setup.c lines 177-215). -/
inductive LateAction where
  | unit_init (name : String)
  | subpage (mem : JailhouseMemory)
  | map_region (mem : JailhouseMemory)
  | set_flag
  | commit
deriving DecidableEq

/-- Translation of the unit loop of init_late (setup.c lines 190-195):
units are (name, init-result) pairs processed in registration order; the
loop stores each result to `error` and returns on the first non-zero one.
Returns the final `error` and the unit initializers actually invoked. -/
def process_units : List (String × Int) → Int × List LateAction
  | [] => (0, [])
  | u :: rest =>
    if u.2 ≠ 0 then (u.2, [LateAction.unit_init u.1])
    else
      let r := process_units rest
      (r.1, LateAction.unit_init u.1 :: r.2)

/-- The result of the operation init_late performs on one memory region
(setup.c lines 198-201): mmio_subpage_register for a sub-page region,
arch_map_memory_region otherwise; both modelled by result oracles. -/
def region_op (is_subpage : JailhouseMemory → Bool)
    (subpage_result map_result : JailhouseMemory → Int)
    (m : JailhouseMemory) : Int :=
  if is_subpage m then subpage_result m else map_result m

/-- The action recorded for one region of init_late, matching the branch
taken on its sub-page flag. -/
def region_act (is_subpage : JailhouseMemory → Bool) (m : JailhouseMemory) :
    LateAction :=
  if is_subpage m then LateAction.subpage m else LateAction.map_region m

/-- Translation of the region loop of init_late (setup.c lines 197-204):
each region is handled by the mechanism selected by its sub-page flag, in
configuration order, aborting on the first non-zero result. -/
def process_regions (is_subpage : JailhouseMemory → Bool)
    (subpage_result map_result : JailhouseMemory → Int) :
    List JailhouseMemory → Int × List LateAction
  | [] => (0, [])
  | m :: rest =>
    if region_op is_subpage subpage_result map_result m ≠ 0 then
      (region_op is_subpage subpage_result map_result m,
        [region_act is_subpage m])
    else
      let r := process_regions is_subpage subpage_result map_result rest
      (r.1, region_act is_subpage m :: r.2)

/-- Translation of init_late (setup.c lines 177-215).  expected_cpus is the
number of CPUs present in the root cell's CPU set (for_each_cpu iterates the
set bits, so the count is the length of the set, modelled as a list of ids);
a mismatch with hypervisor_header.online_cpus stores trace_error(-EINVAL)
and returns.  Then the unit loop, then the region loop, then (under
CONFIG_PAGE_TABLE_PROTECTION, modelled by the flag page_table_protection)
paging_set_flag whose result the source ignores, then config_commit.
Returns the final `error` and the actions performed in order. -/
def init_late (online_cpus : Nat) (cpu_set : List Nat)
    (units : List (String × Int)) (mem_regions : List JailhouseMemory)
    (is_subpage : JailhouseMemory → Bool)
    (subpage_result map_result : JailhouseMemory → Int)
    (page_table_protection : Bool) : Int × List LateAction :=
  let expected_cpus := cpu_set.length
  if online_cpus ≠ expected_cpus then (-EINVAL, [])
  else
    let ru := process_units units
    if ru.1 ≠ 0 then (ru.1, ru.2)
    else
      let rr := process_regions is_subpage subpage_result map_result mem_regions
      if rr.1 ≠ 0 then (rr.1, ru.2 ++ rr.2)
      else
        (0, ru.2 ++ rr.2 ++
          (if page_table_protection then [LateAction.set_flag, LateAction.commit]
           else [LateAction.commit]))

/-- When all unit initializers succeed, the unit loop of init_late invokes
each of them in registration order and leaves error at 0. -/
theorem process_units_all_ok (units : List (String × Int))
    (h : ∀ u ∈ units, u.2 = 0) :
    process_units units = (0, units.map fun u => LateAction.unit_init u.1) := by
  induction units with
  | nil => rfl
  | cons u rest ih =>
    have hu : u.2 = 0 := h u (List.mem_cons_self u rest)
    simp only [process_units]
    rw [if_neg (by simp [hu])]
    rw [ih (fun v hv => h v (List.mem_cons_of_mem u hv))]
    simp

/-- The unit loop of init_late ends with error 0 exactly when every unit
initializer returned 0. -/
theorem process_units_fst_zero_iff (units : List (String × Int)) :
    (process_units units).1 = 0 ↔ ∀ u ∈ units, u.2 = 0 := by
  induction units with
  | nil => simp [process_units]
  | cons u rest ih =>
    by_cases hu : u.2 = 0
    · simp only [process_units]
      rw [if_neg (by simp [hu])]
      simp [hu, ih]
    · simp only [process_units]
      rw [if_pos (by simpa using hu)]
      simp [hu]

/-- The unit loop of init_late never performs the commit action. -/
theorem process_units_no_commit (units : List (String × Int)) :
    LateAction.commit ∉ (process_units units).2 := by
  induction units with
  | nil => simp [process_units]
  | cons u rest ih =>
    simp only [process_units]
    by_cases hu : u.2 = 0
    · rw [if_neg (by simp [hu])]
      simp [ih]
    · rw [if_pos (by simpa using hu)]
      simp

/-- When every region operation succeeds, the region loop of init_late
handles each region in configuration order with the mechanism chosen by its
sub-page flag, and leaves error at 0. -/
theorem process_regions_all_ok (is_subpage : JailhouseMemory → Bool)
    (subpage_result map_result : JailhouseMemory → Int)
    (mem_regions : List JailhouseMemory)
    (h : ∀ m ∈ mem_regions, region_op is_subpage subpage_result map_result m = 0) :
    process_regions is_subpage subpage_result map_result mem_regions =
      (0, mem_regions.map (region_act is_subpage)) := by
  induction mem_regions with
  | nil => rfl
  | cons m rest ih =>
    have hm : region_op is_subpage subpage_result map_result m = 0 :=
      h m (List.mem_cons_self m rest)
    simp only [process_regions]
    rw [if_neg (by simp [hm])]
    rw [ih (fun v hv => h v (List.mem_cons_of_mem m hv))]
    simp

/-- The region loop of init_late ends with error 0 exactly when every
region operation returned 0. -/
theorem process_regions_fst_zero_iff (is_subpage : JailhouseMemory → Bool)
    (subpage_result map_result : JailhouseMemory → Int)
    (mem_regions : List JailhouseMemory) :
    (process_regions is_subpage subpage_result map_result mem_regions).1 = 0 ↔
      ∀ m ∈ mem_regions, region_op is_subpage subpage_result map_result m = 0 := by
  induction mem_regions with
  | nil => simp [process_regions]
  | cons m rest ih =>
    by_cases hm : region_op is_subpage subpage_result map_result m = 0
    · simp only [process_regions]
      rw [if_neg (by simp [hm])]
      simp [hm, ih]
    · simp only [process_regions]
      rw [if_pos (by simpa using hm)]
      simp [hm]

/-- The region loop of init_late never performs the commit action. -/
theorem process_regions_no_commit (is_subpage : JailhouseMemory → Bool)
    (subpage_result map_result : JailhouseMemory → Int)
    (mem_regions : List JailhouseMemory) :
    LateAction.commit ∉
      (process_regions is_subpage subpage_result map_result mem_regions).2 := by
  induction mem_regions with
  | nil => simp [process_regions]
  | cons m rest ih =>
    simp only [process_regions]
    by_cases hm : region_op is_subpage subpage_result map_result m = 0
    · rw [if_neg (by simp [hm])]
      simp [region_act, ih]
      by_cases hs : is_subpage m <;> simp [hs]
    · rw [if_pos (by simpa using hm)]
      simp [region_act]
      by_cases hs : is_subpage m <;> simp [hs]

/-- The region loop of init_late aborts at the first failing region: the
regions before it are handled in order, the failing one is attempted, the
rest are not, and its error is returned. -/
theorem process_regions_abort (is_subpage : JailhouseMemory → Bool)
    (subpage_result map_result : JailhouseMemory → Int)
    (pre : List JailhouseMemory) (bad : JailhouseMemory)
    (post : List JailhouseMemory)
    (hpre : ∀ m ∈ pre, region_op is_subpage subpage_result map_result m = 0)
    (hbad : region_op is_subpage subpage_result map_result bad ≠ 0) :
    process_regions is_subpage subpage_result map_result (pre ++ bad :: post) =
      (region_op is_subpage subpage_result map_result bad,
        pre.map (region_act is_subpage) ++ [region_act is_subpage bad]) := by
  induction pre with
  | nil =>
    simp only [List.nil_append, process_regions]
    rw [if_pos hbad]
    simp
  | cons m rest ih =>
    have hm : region_op is_subpage subpage_result map_result m = 0 :=
      hpre m (List.mem_cons_self m rest)
    simp only [List.cons_append, process_regions, List.append_eq]
    rw [if_neg (by simp [hm])]
    rw [ih (fun v hv => hpre v (List.mem_cons_of_mem m hv))]
    simp

/-- Claim C6, general form.  For a hypervisor region of k pages the
init_early backing loop installs one read-permission mapping per page-sized
slot; each slot's physical backing is the empty page, except the slot whose
address equals the console page's physical address when the virtual-console
flag is set, which is backed by the console page; the loop aborts on the
first mapping failure. -/
theorem init_early_hv_region_maps (virtual_console : Bool)
    (console_phys empty_phys hyp_start size k : Nat)
    (map_result : JailhouseMemory → Int)
    (hsz : size = k * PAGE_SIZE) :
    (∀ j : Nat,
      hv_page_at virtual_console console_phys empty_phys
          (hyp_start + j * PAGE_SIZE) =
        { virt_start := hyp_start + j * PAGE_SIZE
          phys_start :=
            if virtual_console = true ∧ hyp_start + j * PAGE_SIZE = console_phys
            then console_phys else empty_phys
          size := PAGE_SIZE
          flags := JAILHOUSE_MEM_READ }) ∧
    ((∀ p, map_result p = 0) →
      init_early_hv_loop virtual_console console_phys empty_phys map_result
          hyp_start (hyp_start + size) =
        (0, (List.range k).map fun j =>
          hv_page_at virtual_console console_phys empty_phys
            (hyp_start + j * PAGE_SIZE))) ∧
    (∀ m, m < k →
      map_result (hv_page_at virtual_console console_phys empty_phys
        (hyp_start + m * PAGE_SIZE)) ≠ 0 →
      (∀ j, j < m → map_result (hv_page_at virtual_console console_phys
        empty_phys (hyp_start + j * PAGE_SIZE)) = 0) →
      init_early_hv_loop virtual_console console_phys empty_phys map_result
          hyp_start (hyp_start + size) =
        (map_result (hv_page_at virtual_console console_phys empty_phys
            (hyp_start + m * PAGE_SIZE)),
          (List.range (m + 1)).map fun j =>
            hv_page_at virtual_console console_phys empty_phys
              (hyp_start + j * PAGE_SIZE))) := by
  subst hsz
  refine ⟨fun j => rfl, ?_, ?_⟩
  · intro hmap
    exact init_early_hv_loop_all_ok virtual_console console_phys empty_phys
      map_result hmap k hyp_start
  · intro m hm hfail hok
    exact init_early_hv_loop_abort virtual_console console_phys empty_phys
      map_result m k hyp_start hm hfail hok

/-- Witness for C6 at the spec's concrete inputs: a 3-page region starting
at 0x1000; with no virtual console all three pages are backed by the empty
page, and with the virtual console enabled and the console at the second
page (0x2000) that slot is backed by the console page; all with read
permission. -/
theorem init_early_hv_region_maps_witness :
    init_early_hv_loop false 0x2000 0x9000 (fun _ => 0) 0x1000 (0x1000 + 0x3000) =
      (0, [{ phys_start := 0x9000, virt_start := 0x1000, size := 4096, flags := 1 },
           { phys_start := 0x9000, virt_start := 0x2000, size := 4096, flags := 1 },
           { phys_start := 0x9000, virt_start := 0x3000, size := 4096, flags := 1 }]) ∧
    init_early_hv_loop true 0x2000 0x9000 (fun _ => 0) 0x1000 (0x1000 + 0x3000) =
      (0, [{ phys_start := 0x9000, virt_start := 0x1000, size := 4096, flags := 1 },
           { phys_start := 0x2000, virt_start := 0x2000, size := 4096, flags := 1 },
           { phys_start := 0x9000, virt_start := 0x3000, size := 4096, flags := 1 }]) := by
  constructor
  · have h := (init_early_hv_region_maps false 0x2000 0x9000 0x1000 0x3000 3
      (fun _ => 0) (by decide)).2.1 (fun p => rfl)
    rw [h]
    decide
  · have h := (init_early_hv_region_maps true 0x2000 0x9000 0x1000 0x3000 3
      (fun _ => 0) (by decide)).2.1 (fun p => rfl)
    rw [h]
    decide

/-- Claim C7.  When the header's online_cpus count differs from the number
of CPUs present in the root cell's CPU set, init_late stores -EINVAL in the
error channel and returns before invoking any unit initializer and before
handling any memory region. -/
theorem init_late_cpu_count_mismatch (online_cpus : Nat) (cpu_set : List Nat)
    (units : List (String × Int)) (mem_regions : List JailhouseMemory)
    (is_subpage : JailhouseMemory → Bool)
    (subpage_result map_result : JailhouseMemory → Int)
    (page_table_protection : Bool)
    (hne : online_cpus ≠ cpu_set.length) :
    init_late online_cpus cpu_set units mem_regions is_subpage subpage_result
      map_result page_table_protection = (-EINVAL, []) := by
  simp [init_late, hne]

/-- Witness for C7 at the spec's concrete input: online_cpus = 4 but only
3 CPUs in the root cell's set; no unit runs and no region is handled. -/
theorem init_late_cpu_count_mismatch_witness :
    init_late 4 [0, 1, 2] [("unit-a", 0)]
      [{ phys_start := 0x10000, virt_start := 0x10000, size := 0x1000, flags := 1 }]
      (fun _ => false) (fun _ => 0) (fun _ => 0) false = (-EINVAL, []) :=
  init_late_cpu_count_mismatch 4 [0, 1, 2] [("unit-a", 0)]
    [{ phys_start := 0x10000, virt_start := 0x10000, size := 0x1000, flags := 1 }]
    (fun _ => false) (fun _ => 0) (fun _ => 0) false (by decide)

/-- Claim C8.  When cpu_init is called with a per-CPU record whose cpu_id is
not valid, it fails immediately with -EINVAL: it writes -EINVAL to the error
channel, does not increment initialized_cpus, does not assign the cell
pointer, and performs none of the later per-CPU steps. -/
theorem cpu_init_invalid_cpu_id (cpu_set : List Nat) (cpu_id : Nat)
    (page_table_protection con_is_mmio : Bool)
    (r_link_base r_link_pgp r_link_console r_percpu r_arch r_temp : Int)
    (hinv : cpu_id_valid cpu_set cpu_id = false) :
    cpu_init cpu_set cpu_id page_table_protection con_is_mmio
      r_link_base r_link_pgp r_link_console r_percpu r_arch r_temp =
      { err_write := some (-EINVAL), initialized_increment := false
        cell_assigned := false, steps := [] } := by
  simp [cpu_init, hinv]

/-- Witness for C8: cpu_id 7 is outside the configured CPU set {0,1,2,3}. -/
theorem cpu_init_invalid_cpu_id_witness :
    cpu_init [0, 1, 2, 3] 7 false true 0 0 0 0 0 0 =
      { err_write := some (-EINVAL), initialized_increment := false
        cell_assigned := false, steps := [] } :=
  cpu_init_invalid_cpu_id [0, 1, 2, 3] 7 false true 0 0 0 0 0 0 (by decide)

/-- Claim C9.  init_late handles every static memory region of the root
configuration in order — sub-page regions through mmio_subpage_register and
all others through arch_map_memory_region — aborts at the first failing
region, and performs config_commit exactly when the CPU count check, every
unit initializer and every region operation succeeded. -/
theorem init_late_regions_and_commit (online_cpus : Nat) (cpu_set : List Nat)
    (units : List (String × Int)) (mem_regions : List JailhouseMemory)
    (is_subpage : JailhouseMemory → Bool)
    (subpage_result map_result : JailhouseMemory → Int)
    (page_table_protection : Bool) :
    (online_cpus = cpu_set.length → (∀ u ∈ units, u.2 = 0) →
      (∀ m ∈ mem_regions, region_op is_subpage subpage_result map_result m = 0) →
      init_late online_cpus cpu_set units mem_regions is_subpage subpage_result
          map_result page_table_protection =
        (0, units.map (fun u => LateAction.unit_init u.1) ++
            mem_regions.map (region_act is_subpage) ++
            (if page_table_protection
             then [LateAction.set_flag, LateAction.commit]
             else [LateAction.commit]))) ∧
    (∀ pre bad post, mem_regions = pre ++ bad :: post →
      online_cpus = cpu_set.length → (∀ u ∈ units, u.2 = 0) →
      (∀ m ∈ pre, region_op is_subpage subpage_result map_result m = 0) →
      region_op is_subpage subpage_result map_result bad ≠ 0 →
      init_late online_cpus cpu_set units mem_regions is_subpage subpage_result
          map_result page_table_protection =
        (region_op is_subpage subpage_result map_result bad,
          units.map (fun u => LateAction.unit_init u.1) ++
            (pre.map (region_act is_subpage) ++ [region_act is_subpage bad]))) ∧
    (LateAction.commit ∈
        (init_late online_cpus cpu_set units mem_regions is_subpage
          subpage_result map_result page_table_protection).2 ↔
      (online_cpus = cpu_set.length ∧ (∀ u ∈ units, u.2 = 0) ∧
        ∀ m ∈ mem_regions, region_op is_subpage subpage_result map_result m = 0)) := by
  refine ⟨?_, ?_, ?_⟩
  · intro hc hu hr
    simp only [init_late]
    rw [if_neg (by simp [hc])]
    rw [process_units_all_ok units hu]
    rw [if_neg (by simp)]
    rw [process_regions_all_ok is_subpage subpage_result map_result mem_regions hr]
    rw [if_neg (by simp)]
  · intro pre bad post hsplit hc hu hpre hbad
    subst hsplit
    simp only [init_late]
    rw [if_neg (by simp [hc])]
    rw [process_units_all_ok units hu]
    rw [if_neg (by simp)]
    rw [process_regions_abort is_subpage subpage_result map_result pre bad post
      hpre hbad]
    rw [if_pos (by simpa using hbad)]
  · simp only [init_late]
    by_cases hc : online_cpus = cpu_set.length
    · rw [if_neg (by simp [hc])]
      by_cases hu : (process_units units).1 = 0
      · rw [if_neg (by simpa using hu)]
        by_cases hr : (process_regions is_subpage subpage_result map_result
            mem_regions).1 = 0
        · rw [if_neg (by simpa using hr)]
          have h1 := (process_units_fst_zero_iff units).mp hu
          have h2 := (process_regions_fst_zero_iff is_subpage subpage_result
            map_result mem_regions).mp hr
          simp only [List.mem_append]
          constructor
          · intro _
            exact ⟨hc, h1, h2⟩
          · intro _
            right
            by_cases hp : page_table_protection <;> simp [hp]
        · rw [if_pos (by simpa using hr)]
          simp only [List.mem_append]
          constructor
          · intro habs
            rcases habs with h | h
            · exact absurd h (process_units_no_commit units)
            · exact absurd h (process_regions_no_commit is_subpage
                subpage_result map_result mem_regions)
          · intro hall
            exact absurd ((process_regions_fst_zero_iff is_subpage
              subpage_result map_result mem_regions).mpr hall.2.2) hr
      · rw [if_pos (by simpa using hu)]
        constructor
        · intro habs
          exact absurd habs (process_units_no_commit units)
        · intro hall
          exact absurd ((process_units_fst_zero_iff units).mpr hall.2.1) hu
    · rw [if_pos (by simpa using hc)]
      constructor
      · intro habs
        simp at habs
      · intro hall
        exact absurd hall.1 hc

/-- Witness for C9: two regions, the second one sub-page; the single unit
and both region operations succeed, so the actions are the unit initializer,
a direct mapping, a sub-page registration, and the final commit. -/
theorem init_late_regions_and_commit_witness :
    init_late 2 [0, 1] [("pci", 0)]
      [{ phys_start := 0x10000, virt_start := 0x10000, size := 0x1000, flags := 1 },
       { phys_start := 0x20000, virt_start := 0x20000, size := 0x100, flags := 1 }]
      (fun m => decide (m.size < 0x1000)) (fun _ => 0) (fun _ => 0) false =
      (0, [LateAction.unit_init "pci",
           LateAction.map_region
             { phys_start := 0x10000, virt_start := 0x10000, size := 0x1000, flags := 1 },
           LateAction.subpage
             { phys_start := 0x20000, virt_start := 0x20000, size := 0x100, flags := 1 },
           LateAction.commit]) := by
  have h := (init_late_regions_and_commit 2 [0, 1] [("pci", 0)]
    [{ phys_start := 0x10000, virt_start := 0x10000, size := 0x1000, flags := 1 },
     { phys_start := 0x20000, virt_start := 0x20000, size := 0x100, flags := 1 }]
    (fun m => decide (m.size < 0x1000)) (fun _ => 0) (fun _ => 0) false).1
    (by decide) (by decide) (by decide)
  rw [h]
  decide

/-- Program counter of one core inside entry (setup.c lines 221-288).
start: before the first spin_lock (line 229); inc: holding the lock, about
to increment entered_cpus (line 237); waitEntered: in the busy-wait of line
241; elect: holding the lock, at the master election check of line 246;
earlyStep: inside init_early (master only, lock held); checkErr: at the
`if (!error)` of line 253 (lock held); cpuStep: inside cpu_init (lock held);
unlock2: about to release the lock (line 256); waitInit: in the busy-wait of
line 258; afterInit: at the `if (!error && master)` of line 261; lateStep:
inside init_late (master only); afterLate: at the `if (!error)` of line 263;
waitActivate: in the busy-wait of line 272; errCheckFinal: at the
`if (error)` of line 276; restore: past the master-only shutdown() call,
about to run arch_cpu_restore (line 279); failedDone: returned with the
error code (line 280); activated: executed arch_cpu_activate_vmm
(line 287). -/
inductive Loc where
  | start
  | inc
  | waitEntered
  | elect
  | earlyStep
  | checkErr
  | cpuStep
  | unlock2
  | waitInit
  | afterInit
  | lateStep
  | afterLate
  | waitActivate
  | errCheckFinal
  | restore
  | failedDone
  | activated
deriving DecidableEq

/-- Locations at which a core holds init_lock. -/
def Loc.locked : Loc → Bool
  | .inc | .elect | .earlyStep | .checkErr | .cpuStep | .unlock2 => true
  | _ => false

/-- Locations past the entered_cpus increment of setup.c line 237. -/
def Loc.past_inc : Loc → Bool
  | .start | .inc => false
  | _ => true

/-- Locations past the master election check of setup.c line 246. -/
def Loc.past_elect : Loc → Bool
  | .start | .inc | .waitEntered | .elect => false
  | _ => true

/-- Locations past the cpu_init call of setup.c line 254. -/
def Loc.past_cpu : Loc → Bool
  | .unlock2 | .waitInit | .afterInit | .lateStep | .afterLate
  | .waitActivate | .errCheckFinal | .restore | .failedDone | .activated => true
  | _ => false

/-- Per-core state: program counter, the local `master` flag of entry
(line 225), whether this core has incremented initialized_cpus (history of
the increment at line 169), whether arch_cpu_restore was invoked for it, and
the value returned from entry (line 280), none while still running. -/
structure Core where
  loc : Loc
  master : Bool
  inited : Bool
  restored : Bool
  ret : Option Int
deriving DecidableEq

/-- Initial per-core state: at the top of entry with master = false. -/
def Core.first : Core :=
  { loc := Loc.start, master := false, inited := false, restored := false,
    ret := none }

/-- Shared state of the boot protocol for n cores (n is the header's
online_cpus; one core per expected CPU runs entry).  init_lock holds the
core owning the entry lock, the remaining fields are the file-scope
variables of setup.c lines 29-32 and the function-static `activate` of line
224; shutdown_done records whether shutdown() (line 278) has run. -/
structure St (n : Nat) where
  init_lock : Option (Fin n)
  master_cpu_id : Nat
  entered_cpus : Nat
  initialized_cpus : Nat
  error : Int
  activate : Bool
  shutdown_done : Bool
  cores : Fin n → Core

/-- Initial shared state: lock free, master_cpu_id = INVALID_CPU_ID
(line 30), counters 0, error 0, activate false, every core at the top of
entry. -/
def St.first (n : Nat) : St n :=
  { init_lock := none, master_cpu_id := INVALID_CPU_ID, entered_cpus := 0,
    initialized_cpus := 0, error := 0, activate := false,
    shutdown_done := false, cores := fun _ => Core.first }

/-- Update one core of the shared state. -/
def St.setCore {n : Nat} (s : St n) (i : Fin n) (c : Core) : St n :=
  { s with cores := Function.update s.cores i c }

/-- Move one core to a new location, leaving its other fields unchanged. -/
def St.setLoc {n : Nat} (s : St n) (i : Fin n) (l : Loc) : St n :=
  s.setCore i { s.cores i with loc := l }

/-- Small-step transition relation of the entry protocol.  Each constructor
is one shared-state-visible action of one core of setup.c lines 221-288.
The fallible interiors of init_early, cpu_init and init_late are
nondeterministic: a call can succeed (storing 0 to `error` in init_early and
init_late, which assign `error` per call, and nothing in cpu_init, which
uses a local err) or fail with a negative code, after which the routine
returns at once.  Busy-waits step only when the exit condition of the
corresponding while loop holds.  Election (line 246) and the first statement
of init_early, the store master_cpu_id = cpu_id (line 41), form one step
under the held lock: no shared variable read elsewhere is written between
them. -/
inductive Step {n : Nat} : St n → St n → Prop where
  | take_entry_lock (s : St n) (i : Fin n)
      (hl : s.init_lock = none) (hc : (s.cores i).loc = Loc.start) :
      Step s { s.setLoc i Loc.inc with init_lock := some i }
  | inc_entered (s : St n) (i : Fin n)
      (hl : s.init_lock = some i) (hc : (s.cores i).loc = Loc.inc) :
      Step s { s.setLoc i Loc.waitEntered with
        entered_cpus := s.entered_cpus + 1, init_lock := none }
  | pass_entered_wait (s : St n) (i : Fin n)
      (hl : s.init_lock = none) (hc : (s.cores i).loc = Loc.waitEntered)
      (hw : n ≤ s.entered_cpus) :
      Step s { s.setLoc i Loc.elect with init_lock := some i }
  | elect_master (s : St n) (i : Fin n)
      (hl : s.init_lock = some i) (hc : (s.cores i).loc = Loc.elect)
      (hm : s.master_cpu_id = INVALID_CPU_ID) :
      Step s { s.setCore i { s.cores i with loc := Loc.earlyStep, master := true } with
        master_cpu_id := i.val }
  | elect_secondary (s : St n) (i : Fin n)
      (hl : s.init_lock = some i) (hc : (s.cores i).loc = Loc.elect)
      (hm : s.master_cpu_id ≠ INVALID_CPU_ID) :
      Step s (s.setLoc i Loc.checkErr)
  | early_call_ok (s : St n) (i : Fin n)
      (hl : s.init_lock = some i) (hc : (s.cores i).loc = Loc.earlyStep) :
      Step s { s with error := 0 }
  | early_call_fail (s : St n) (i : Fin n) (e : Int) (he : e < 0)
      (hl : s.init_lock = some i) (hc : (s.cores i).loc = Loc.earlyStep) :
      Step s { s.setLoc i Loc.checkErr with error := e }
  | early_finish (s : St n) (i : Fin n)
      (hl : s.init_lock = some i) (hc : (s.cores i).loc = Loc.earlyStep) :
      Step s (s.setLoc i Loc.checkErr)
  | cpu_init_begin (s : St n) (i : Fin n)
      (hl : s.init_lock = some i) (hc : (s.cores i).loc = Loc.checkErr)
      (herr : s.error = 0) :
      Step s (s.setLoc i Loc.cpuStep)
  | cpu_init_skip (s : St n) (i : Fin n)
      (hl : s.init_lock = some i) (hc : (s.cores i).loc = Loc.checkErr)
      (herr : s.error ≠ 0) :
      Step s (s.setLoc i Loc.unlock2)
  | cpu_init_fail (s : St n) (i : Fin n) (e : Int) (he : e < 0)
      (hl : s.init_lock = some i) (hc : (s.cores i).loc = Loc.cpuStep) :
      Step s { s.setLoc i Loc.unlock2 with error := e }
  | cpu_init_ok (s : St n) (i : Fin n)
      (hl : s.init_lock = some i) (hc : (s.cores i).loc = Loc.cpuStep) :
      Step s { s.setCore i { s.cores i with loc := Loc.unlock2, inited := true } with
        initialized_cpus := s.initialized_cpus + 1 }
  | release_entry_lock (s : St n) (i : Fin n)
      (hl : s.init_lock = some i) (hc : (s.cores i).loc = Loc.unlock2) :
      Step s { s.setLoc i Loc.waitInit with init_lock := none }
  | pass_init_wait (s : St n) (i : Fin n)
      (hc : (s.cores i).loc = Loc.waitInit)
      (hw : s.error ≠ 0 ∨ n ≤ s.initialized_cpus) :
      Step s (s.setLoc i Loc.afterInit)
  | begin_late (s : St n) (i : Fin n)
      (hc : (s.cores i).loc = Loc.afterInit)
      (herr : s.error = 0) (hm : (s.cores i).master = true) :
      Step s (s.setLoc i Loc.lateStep)
  | skip_late (s : St n) (i : Fin n)
      (hc : (s.cores i).loc = Loc.afterInit)
      (hnm : ¬(s.error = 0 ∧ (s.cores i).master = true)) :
      Step s (s.setLoc i Loc.waitActivate)
  | late_call_ok (s : St n) (i : Fin n)
      (hc : (s.cores i).loc = Loc.lateStep) :
      Step s { s with error := 0 }
  | late_call_fail (s : St n) (i : Fin n) (e : Int) (he : e < 0)
      (hc : (s.cores i).loc = Loc.lateStep) :
      Step s { s.setLoc i Loc.afterLate with error := e }
  | late_finish (s : St n) (i : Fin n)
      (hc : (s.cores i).loc = Loc.lateStep) :
      Step s (s.setLoc i Loc.afterLate)
  | set_activate (s : St n) (i : Fin n)
      (hc : (s.cores i).loc = Loc.afterLate) (herr : s.error = 0) :
      Step s { s.setLoc i Loc.errCheckFinal with activate := true }
  | skip_activate (s : St n) (i : Fin n)
      (hc : (s.cores i).loc = Loc.afterLate) (herr : s.error ≠ 0) :
      Step s (s.setLoc i Loc.errCheckFinal)
  | pass_activate_wait (s : St n) (i : Fin n)
      (hc : (s.cores i).loc = Loc.waitActivate)
      (hw : s.error ≠ 0 ∨ s.activate = true) :
      Step s (s.setLoc i Loc.errCheckFinal)
  | fail_master_shutdown (s : St n) (i : Fin n)
      (hc : (s.cores i).loc = Loc.errCheckFinal)
      (herr : s.error ≠ 0) (hm : (s.cores i).master = true) :
      Step s { s.setLoc i Loc.restore with shutdown_done := true }
  | fail_secondary (s : St n) (i : Fin n)
      (hc : (s.cores i).loc = Loc.errCheckFinal)
      (herr : s.error ≠ 0) (hm : (s.cores i).master = false) :
      Step s (s.setLoc i Loc.restore)
  | do_restore (s : St n) (i : Fin n)
      (hc : (s.cores i).loc = Loc.restore) :
      Step s (s.setCore i { s.cores i with
        loc := Loc.failedDone, restored := true, ret := some s.error })
  | activate_vmm (s : St n) (i : Fin n)
      (hc : (s.cores i).loc = Loc.errCheckFinal) (herr : s.error = 0) :
      Step s (s.setLoc i Loc.activated)

/-- Multi-step reachability between protocol states. -/
def ReachFrom {n : Nat} (s s' : St n) : Prop :=
  Relation.ReflTransGen Step s s'

/-- States reachable from the initial state of a boot attempt. -/
def Reachable (n : Nat) (s : St n) : Prop :=
  ReachFrom (St.first n) s

theorem setCore_cores {n : Nat} (s : St n) (i : Fin n) (c : Core) :
    (s.setCore i c).cores = Function.update s.cores i c := rfl

theorem setCore_init_lock {n : Nat} (s : St n) (i : Fin n) (c : Core) :
    (s.setCore i c).init_lock = s.init_lock := rfl

theorem setCore_master_cpu_id {n : Nat} (s : St n) (i : Fin n) (c : Core) :
    (s.setCore i c).master_cpu_id = s.master_cpu_id := rfl

theorem setCore_entered {n : Nat} (s : St n) (i : Fin n) (c : Core) :
    (s.setCore i c).entered_cpus = s.entered_cpus := rfl

theorem setCore_initialized {n : Nat} (s : St n) (i : Fin n) (c : Core) :
    (s.setCore i c).initialized_cpus = s.initialized_cpus := rfl

theorem setCore_error {n : Nat} (s : St n) (i : Fin n) (c : Core) :
    (s.setCore i c).error = s.error := rfl

theorem setCore_activate {n : Nat} (s : St n) (i : Fin n) (c : Core) :
    (s.setCore i c).activate = s.activate := rfl

theorem setCore_shutdown {n : Nat} (s : St n) (i : Fin n) (c : Core) :
    (s.setCore i c).shutdown_done = s.shutdown_done := rfl

theorem setLoc_eq {n : Nat} (s : St n) (i : Fin n) (l : Loc) :
    s.setLoc i l = s.setCore i { s.cores i with loc := l } := rfl

/-- Counting cores satisfying a Boolean predicate is unchanged when one
core is replaced by a core with the same predicate value. -/
theorem card_filter_update_congr {n : Nat} (f : Fin n → Core) (k : Fin n)
    (c : Core) (p : Core → Bool) (h : p c = p (f k)) :
    (Finset.univ.filter fun i => p (Function.update f k c i) = true).card =
      (Finset.univ.filter fun i => p (f i) = true).card := by
  congr 1
  apply Finset.filter_congr
  intro i _
  by_cases hik : i = k
  · subst hik
    rw [Function.update_same, h]
  · rw [Function.update_noteq hik]

/-- Counting cores satisfying a Boolean predicate grows by one when one
core flips from false to true. -/
theorem card_filter_update_flip {n : Nat} (f : Fin n → Core) (k : Fin n)
    (c : Core) (p : Core → Bool) (hold : p (f k) = false) (hnew : p c = true) :
    (Finset.univ.filter fun i => p (Function.update f k c i) = true).card =
      (Finset.univ.filter fun i => p (f i) = true).card + 1 := by
  have hset : (Finset.univ.filter fun i => p (Function.update f k c i) = true) =
      insert k (Finset.univ.filter fun i => p (f i) = true) := by
    ext i
    simp only [Finset.mem_filter, Finset.mem_insert, Finset.mem_univ, true_and]
    by_cases hik : i = k
    · subst hik
      simp [Function.update_same, hnew]
    · simp [Function.update_noteq hik, hik]
  rw [hset, Finset.card_insert_of_not_mem]
  simp [Finset.mem_filter, hold]

/-- On Fin n, a predicate holding for at least n cores holds for all. -/
theorem all_of_le_card {n : Nat} (f : Fin n → Core) (p : Core → Bool)
    (h : n ≤ (Finset.univ.filter fun i => p (f i) = true).card) :
    ∀ i, p (f i) = true := by
  have hle : (Finset.univ.filter fun i => p (f i) = true).card ≤
      Fintype.card (Fin n) := Finset.card_le_univ _
  have hcard : (Finset.univ.filter fun i => p (f i) = true).card =
      Fintype.card (Fin n) := by
    rw [Fintype.card_fin] at hle ⊢
    omega
  have huniv := Finset.eq_univ_of_card _ hcard
  intro i
  have hmem : i ∈ Finset.univ.filter fun i => p (f i) = true := by
    rw [huniv]
    exact Finset.mem_univ i
  simpa using (Finset.mem_filter.mp hmem).2

/-- Inductive invariant of the entry protocol, proved to hold in every
reachable state.  Each field is one fact about the shared state:
lock_own — a core inside a lock-protected section owns init_lock;
entered_eq / inited_eq — the counters count exactly the cores that have
performed the corresponding increment;
inited_loc — a core that incremented initialized_cpus is past cpu_init;
master_id — a core whose local master flag is set wrote its id to
master_cpu_id (init_early's first statement, line 41);
master_ex — a claimed master_cpu_id belongs to some master core;
invalid_err — while no master has been elected the error channel is 0;
past_elect_master — any core past the election has seen a claimed slot;
early_inv — only the master runs init_early, and with error still 0;
cpu_inv — cpu_init runs only with error 0 and before this core's increment;
after_init_inv — a core past the initialized_cpus wait saw an error or a
full count;
late_master / late_err — init_late runs only on the master, only after all
cores incremented initialized_cpus, with error 0;
err_check_inv — a core at the final error check saw an error or the gate;
activ_inv — the gate is set only after the master completed init_late with
error 0, every core having succeeded cpu_init;
activated_inv — a core that performed the mode switch saw the gate set;
restore_inv / done_inv — the failure path: error is non-zero, the master
ran shutdown() before arch_cpu_restore, and a returned core returned the
error value after restoring;
restored_loc — arch_cpu_restore happens only on the failure exit. -/
structure Inv {n : Nat} (s : St n) : Prop where
  lock_own : ∀ i, (s.cores i).loc.locked = true → s.init_lock = some i
  entered_eq : s.entered_cpus =
    (Finset.univ.filter fun i => (s.cores i).loc.past_inc = true).card
  inited_eq : s.initialized_cpus =
    (Finset.univ.filter fun i => (s.cores i).inited = true).card
  inited_loc : ∀ i, (s.cores i).inited = true → (s.cores i).loc.past_cpu = true
  master_id : ∀ i, (s.cores i).master = true → s.master_cpu_id = i.val
  master_ex : s.master_cpu_id ≠ INVALID_CPU_ID → ∃ i, (s.cores i).master = true
  invalid_err : s.master_cpu_id = INVALID_CPU_ID → s.error = 0
  past_elect_master : ∀ i, (s.cores i).loc.past_elect = true →
    s.master_cpu_id ≠ INVALID_CPU_ID
  early_inv : ∀ i, (s.cores i).loc = Loc.earlyStep →
    (s.cores i).master = true ∧ s.error = 0
  cpu_inv : ∀ i, (s.cores i).loc = Loc.cpuStep →
    s.error = 0 ∧ (s.cores i).inited = false
  after_init_inv : ∀ i, (s.cores i).loc = Loc.afterInit →
    s.error ≠ 0 ∨ n ≤ s.initialized_cpus
  late_master : ∀ i,
    ((s.cores i).loc = Loc.lateStep ∨ (s.cores i).loc = Loc.afterLate) →
    (s.cores i).master = true ∧ ∀ j, (s.cores j).inited = true
  late_err : ∀ i, (s.cores i).loc = Loc.lateStep → s.error = 0
  err_check_inv : ∀ i, (s.cores i).loc = Loc.errCheckFinal →
    s.error ≠ 0 ∨ s.activate = true
  activ_inv : s.activate = true →
    s.error = 0 ∧ (∀ j, (s.cores j).inited = true) ∧
    ∃ i, (s.cores i).master = true ∧
      ((s.cores i).loc = Loc.errCheckFinal ∨ (s.cores i).loc = Loc.activated)
  activated_inv : ∀ i, (s.cores i).loc = Loc.activated → s.activate = true
  restore_inv : ∀ i, (s.cores i).loc = Loc.restore →
    s.error ≠ 0 ∧ ((s.cores i).master = true → s.shutdown_done = true) ∧
    (s.cores i).restored = false
  done_inv : ∀ i, (s.cores i).loc = Loc.failedDone →
    s.error ≠ 0 ∧ (s.cores i).ret = some s.error ∧
    (s.cores i).restored = true ∧
    ((s.cores i).master = true → s.shutdown_done = true)
  restored_loc : ∀ i, (s.cores i).restored = true →
    (s.cores i).loc = Loc.failedDone

/-- The invariant holds in the initial state. -/
theorem inv_first (n : Nat) : Inv (St.first n) := by
  constructor <;> simp [St.first, Core.first, Loc.locked, Loc.past_inc,
    Loc.past_elect, Loc.past_cpu]

/-- A per-core property transfers across a one-core update when it holds
for all old cores and for the new core value. -/
theorem forall_update_core {n : Nat} (P : Core → Prop) (f : Fin n → Core)
    (k : Fin n) (c : Core) (hothers : ∀ j, P (f j)) (hk : P c) :
    ∀ j, P (Function.update f k c j) := by
  intro j
  by_cases hjk : j = k
  · subst hjk
    rw [Function.update_same]
    exact hk
  · rw [Function.update_noteq hjk]
    exact hothers j

/-- An existing master core still exists after a one-core update that
preserves the master flag of the updated core. -/
theorem exists_master_update {n : Nat} (f : Fin n → Core) (k : Fin n)
    (c : Core) (hck : c.master = (f k).master)
    (hex : ∃ m, (f m).master = true) :
    ∃ m, (Function.update f k c m).master = true := by
  obtain ⟨m, hm⟩ := hex
  refine ⟨m, ?_⟩
  by_cases hmk : m = k
  · subst hmk
    rw [Function.update_same, hck]
    exact hm
  · rw [Function.update_noteq hmk]
    exact hm

/-- All-cores-inited transfers across a one-core update that preserves the
inited flag of the updated core. -/
theorem all_inited_update {n : Nat} (f : Fin n → Core) (k : Fin n) (c : Core)
    (hck : c.inited = (f k).inited) (hall : ∀ m, (f m).inited = true) :
    ∀ m, (Function.update f k c m).inited = true := by
  intro m
  by_cases hmk : m = k
  · subst hmk
    rw [Function.update_same, hck]
    exact hall m
  · rw [Function.update_noteq hmk]
    exact hall m

/-- The master core witnessing the activation gate survives a one-core
update whose target is at neither of the witness locations. -/
theorem activ_exists_update {n : Nat} (f : Fin n → Core) (k : Fin n) (c : Core)
    (hk1 : (f k).loc ≠ Loc.errCheckFinal) (hk2 : (f k).loc ≠ Loc.activated)
    (hex : ∃ m, (f m).master = true ∧
      ((f m).loc = Loc.errCheckFinal ∨ (f m).loc = Loc.activated)) :
    ∃ m, (Function.update f k c m).master = true ∧
      ((Function.update f k c m).loc = Loc.errCheckFinal ∨
        (Function.update f k c m).loc = Loc.activated) := by
  obtain ⟨m, hm, hloc⟩ := hex
  have hmk : m ≠ k := by
    intro hmk
    subst hmk
    rcases hloc with hl | hl
    · exact hk1 hl
    · exact hk2 hl
  refine ⟨m, ?_, ?_⟩
  · rw [Function.update_noteq hmk]
    exact hm
  · rw [Function.update_noteq hmk]
    exact hloc

/-- Shorthand for the entered_cpus counting field across a loc-only update
that does not cross the increment point. -/
theorem entered_congr_bullet {n : Nat} {s : St n} (h : Inv s) (i : Fin n)
    (c : Core) (hp : c.loc.past_inc = (s.cores i).loc.past_inc) :
    s.entered_cpus = (Finset.univ.filter fun j =>
      (Function.update s.cores i c j).loc.past_inc = true).card := by
  rw [h.entered_eq]
  exact (card_filter_update_congr s.cores i c (fun c0 => c0.loc.past_inc) hp).symm

/-- Shorthand for the initialized_cpus counting field across an update that
does not change the updated core's inited flag. -/
theorem inited_congr_bullet {n : Nat} {s : St n} (h : Inv s) (i : Fin n)
    (c : Core) (hp : c.inited = (s.cores i).inited) :
    s.initialized_cpus = (Finset.univ.filter fun j =>
      (Function.update s.cores i c j).inited = true).card := by
  rw [h.inited_eq]
  exact (card_filter_update_congr s.cores i c (fun c0 => c0.inited) hp).symm

/-- Two master cores coincide: both wrote their id to master_cpu_id under
the election, and Fin values determine the core. -/
theorem master_unique {n : Nat} {s : St n} (h : Inv s) {i j : Fin n}
    (hi : (s.cores i).master = true) (hj : (s.cores j).master = true) :
    i = j := by
  have h1 := h.master_id i hi
  have h2 := h.master_id j hj
  apply Fin.ext
  omega

/-- Shorthand for the entered_cpus counting field across the increment. -/
theorem entered_flip_bullet {n : Nat} {s : St n} (h : Inv s) (i : Fin n)
    (c : Core) (hold : (s.cores i).loc.past_inc = false)
    (hnew : c.loc.past_inc = true) :
    s.entered_cpus + 1 = (Finset.univ.filter fun j =>
      (Function.update s.cores i c j).loc.past_inc = true).card := by
  rw [h.entered_eq]
  exact (card_filter_update_flip s.cores i c (fun c0 => c0.loc.past_inc)
    hold hnew).symm

/-- Shorthand for the initialized_cpus counting field across the
increment. -/
theorem inited_flip_bullet {n : Nat} {s : St n} (h : Inv s) (i : Fin n)
    (c : Core) (hold : (s.cores i).inited = false) (hnew : c.inited = true) :
    s.initialized_cpus + 1 = (Finset.univ.filter fun j =>
      (Function.update s.cores i c j).inited = true).card := by
  rw [h.inited_eq]
  exact (card_filter_update_flip s.cores i c (fun c0 => c0.inited)
    hold hnew).symm

/-- A core at a location before the cpu_init exit has not incremented
initialized_cpus. -/
theorem not_inited_of_loc {n : Nat} {s : St n} (h : Inv s) {i : Fin n}
    (hnp : (s.cores i).loc.past_cpu = false) : (s.cores i).inited = false := by
  cases hx : (s.cores i).inited
  · rfl
  · have hpc := h.inited_loc i hx
    rw [hnp] at hpc
    cases hpc

/-- A core not at the failure exit has not run arch_cpu_restore. -/
theorem not_restored_of_loc {n : Nat} {s : St n} (h : Inv s) {i : Fin n}
    (hne : (s.cores i).loc ≠ Loc.failedDone) : (s.cores i).restored = false := by
  cases hx : (s.cores i).restored
  · rfl
  · exact absurd (h.restored_loc i hx) hne

/-- Invariant preservation for the lock acquisition at entry (line 229). -/
theorem inv_take_entry_lock {n : Nat} {s : St n} (h : Inv s) (i : Fin n)
    (hl : s.init_lock = none) (hc : (s.cores i).loc = Loc.start) :
    Inv { s.setLoc i Loc.inc with init_lock := some i } := by
  simp only [St.setLoc, St.setCore]
  refine ⟨?_, ?_, ?_, ?_, ?_, ?_, ?_, ?_, ?_, ?_, ?_, ?_, ?_, ?_, ?_, ?_, ?_, ?_, ?_⟩
  · intro j hj
    dsimp only at hj ⊢
    by_cases hji : j = i
    · subst hji
      rfl
    · rw [Function.update_noteq hji] at hj
      have hco := h.lock_own j hj
      rw [hl] at hco
      cases hco
  · exact entered_congr_bullet h i _ (by rw [hc]; rfl)
  · exact inited_congr_bullet h i _ rfl
  · exact forall_update_core (fun c => c.inited = true → c.loc.past_cpu = true)
      s.cores i _ (fun j => h.inited_loc j)
      (fun hin => by
        have hpast := h.inited_loc i hin
        rw [hc] at hpast
        exact absurd hpast (by decide))
  · intro j hj
    dsimp only at hj ⊢
    by_cases hji : j = i
    · subst hji
      rw [Function.update_same] at hj
      exact h.master_id j hj
    · rw [Function.update_noteq hji] at hj
      exact h.master_id j hj
  · intro hne
    exact exists_master_update s.cores i _ rfl (h.master_ex hne)
  · exact h.invalid_err
  · exact forall_update_core (fun c => c.loc.past_elect = true →
        s.master_cpu_id ≠ INVALID_CPU_ID)
      s.cores i _ (fun j => h.past_elect_master j)
      (fun hpe => nomatch hpe)
  · exact forall_update_core (fun c => c.loc = Loc.earlyStep →
        c.master = true ∧ s.error = 0)
      s.cores i _ (fun j => h.early_inv j)
      (fun heq => nomatch heq)
  · exact forall_update_core (fun c => c.loc = Loc.cpuStep →
        s.error = 0 ∧ c.inited = false)
      s.cores i _ (fun j => h.cpu_inv j)
      (fun heq => nomatch heq)
  · exact forall_update_core (fun c => c.loc = Loc.afterInit →
        s.error ≠ 0 ∨ n ≤ s.initialized_cpus)
      s.cores i _ (fun j => h.after_init_inv j)
      (fun heq => nomatch heq)
  · intro j hj
    dsimp only at hj ⊢
    by_cases hji : j = i
    · subst hji
      rw [Function.update_same] at hj
      rcases hj with hj | hj <;> simp at hj
    · rw [Function.update_noteq hji] at hj
      have hlm := h.late_master j hj
      rw [Function.update_noteq hji]
      exact ⟨hlm.1, all_inited_update s.cores i _ rfl hlm.2⟩
  · exact forall_update_core (fun c => c.loc = Loc.lateStep → s.error = 0)
      s.cores i _ (fun j => h.late_err j)
      (fun heq => nomatch heq)
  · exact forall_update_core (fun c => c.loc = Loc.errCheckFinal →
        s.error ≠ 0 ∨ s.activate = true)
      s.cores i _ (fun j => h.err_check_inv j)
      (fun heq => nomatch heq)
  · intro hact
    obtain ⟨he, hall, hex⟩ := h.activ_inv hact
    refine ⟨he, all_inited_update s.cores i _ rfl hall, ?_⟩
    exact activ_exists_update s.cores i _
      (by rw [hc]; decide) (by rw [hc]; decide) hex
  · exact forall_update_core (fun c => c.loc = Loc.activated →
        s.activate = true)
      s.cores i _ (fun j => h.activated_inv j)
      (fun heq => nomatch heq)
  · exact forall_update_core (fun c => c.loc = Loc.restore →
        s.error ≠ 0 ∧ (c.master = true → s.shutdown_done = true) ∧
        c.restored = false)
      s.cores i _ (fun j => h.restore_inv j)
      (fun heq => nomatch heq)
  · exact forall_update_core (fun c => c.loc = Loc.failedDone →
        s.error ≠ 0 ∧ c.ret = some s.error ∧ c.restored = true ∧
        (c.master = true → s.shutdown_done = true))
      s.cores i _ (fun j => h.done_inv j)
      (fun heq => nomatch heq)
  · exact forall_update_core (fun c => c.restored = true →
        c.loc = Loc.failedDone)
      s.cores i _ (fun j => h.restored_loc j)
      (fun hre => by
        have hdone := h.restored_loc i hre
        rw [hc] at hdone
        exact absurd hdone (by decide))

/-- Invariant preservation for the entered_cpus increment (line 237) and
lock release (line 239). -/
theorem inv_inc_entered {n : Nat} {s : St n} (h : Inv s) (i : Fin n)
    (hl : s.init_lock = some i) (hc : (s.cores i).loc = Loc.inc) :
    Inv { s.setLoc i Loc.waitEntered with
      entered_cpus := s.entered_cpus + 1, init_lock := none } := by
  simp only [St.setLoc, St.setCore]
  refine ⟨?_, ?_, ?_, ?_, ?_, ?_, ?_, ?_, ?_, ?_, ?_, ?_, ?_, ?_, ?_, ?_, ?_, ?_, ?_⟩
  · intro j hj
    dsimp only at hj ⊢
    by_cases hji : j = i
    · subst hji
      rw [Function.update_same] at hj
      simp [Loc.locked] at hj
    · rw [Function.update_noteq hji] at hj
      have hco := h.lock_own j hj
      rw [hl] at hco
      exact absurd (Option.some.inj hco).symm hji
  · exact entered_flip_bullet h i _ (by rw [hc]; rfl) rfl
  · exact inited_congr_bullet h i _ rfl
  · exact forall_update_core (fun c => c.inited = true → c.loc.past_cpu = true)
      s.cores i _ (fun j => h.inited_loc j)
      (fun hin => by
        have hpast := h.inited_loc i hin
        rw [hc] at hpast
        exact absurd hpast (by decide))
  · intro j hj
    dsimp only at hj ⊢
    by_cases hji : j = i
    · subst hji
      rw [Function.update_same] at hj
      exact h.master_id j hj
    · rw [Function.update_noteq hji] at hj
      exact h.master_id j hj
  · intro hne
    exact exists_master_update s.cores i _ rfl (h.master_ex hne)
  · exact h.invalid_err
  · exact forall_update_core (fun c => c.loc.past_elect = true →
        s.master_cpu_id ≠ INVALID_CPU_ID)
      s.cores i _ (fun j => h.past_elect_master j) (fun hpe => nomatch hpe)
  · exact forall_update_core (fun c => c.loc = Loc.earlyStep →
        c.master = true ∧ s.error = 0)
      s.cores i _ (fun j => h.early_inv j) (fun heq => nomatch heq)
  · exact forall_update_core (fun c => c.loc = Loc.cpuStep →
        s.error = 0 ∧ c.inited = false)
      s.cores i _ (fun j => h.cpu_inv j) (fun heq => nomatch heq)
  · exact forall_update_core (fun c => c.loc = Loc.afterInit →
        s.error ≠ 0 ∨ n ≤ s.initialized_cpus)
      s.cores i _ (fun j => h.after_init_inv j) (fun heq => nomatch heq)
  · intro j hj
    dsimp only at hj ⊢
    by_cases hji : j = i
    · subst hji
      rw [Function.update_same] at hj
      rcases hj with hj | hj <;> simp at hj
    · rw [Function.update_noteq hji] at hj
      have hlm := h.late_master j hj
      rw [Function.update_noteq hji]
      exact ⟨hlm.1, all_inited_update s.cores i _ rfl hlm.2⟩
  · exact forall_update_core (fun c => c.loc = Loc.lateStep → s.error = 0)
      s.cores i _ (fun j => h.late_err j) (fun heq => nomatch heq)
  · exact forall_update_core (fun c => c.loc = Loc.errCheckFinal →
        s.error ≠ 0 ∨ s.activate = true)
      s.cores i _ (fun j => h.err_check_inv j) (fun heq => nomatch heq)
  · intro hact
    obtain ⟨he, hall, hex⟩ := h.activ_inv hact
    exact ⟨he, all_inited_update s.cores i _ rfl hall,
      activ_exists_update s.cores i _ (by rw [hc]; decide)
        (by rw [hc]; decide) hex⟩
  · exact forall_update_core (fun c => c.loc = Loc.activated →
        s.activate = true)
      s.cores i _ (fun j => h.activated_inv j) (fun heq => nomatch heq)
  · exact forall_update_core (fun c => c.loc = Loc.restore →
        s.error ≠ 0 ∧ (c.master = true → s.shutdown_done = true) ∧
        c.restored = false)
      s.cores i _ (fun j => h.restore_inv j) (fun heq => nomatch heq)
  · exact forall_update_core (fun c => c.loc = Loc.failedDone →
        s.error ≠ 0 ∧ c.ret = some s.error ∧ c.restored = true ∧
        (c.master = true → s.shutdown_done = true))
      s.cores i _ (fun j => h.done_inv j) (fun heq => nomatch heq)
  · exact forall_update_core (fun c => c.restored = true →
        c.loc = Loc.failedDone)
      s.cores i _ (fun j => h.restored_loc j)
      (fun hre => by
        have hdone := h.restored_loc i hre
        rw [hc] at hdone
        exact absurd hdone (by decide))

/-- Invariant preservation for a core leaving the entered_cpus busy-wait
(line 241) and retaking the lock (line 244). -/
theorem inv_pass_entered_wait {n : Nat} {s : St n} (h : Inv s) (i : Fin n)
    (hl : s.init_lock = none) (hc : (s.cores i).loc = Loc.waitEntered)
    (hw : n ≤ s.entered_cpus) :
    Inv { s.setLoc i Loc.elect with init_lock := some i } := by
  simp only [St.setLoc, St.setCore]
  refine ⟨?_, ?_, ?_, ?_, ?_, ?_, ?_, ?_, ?_, ?_, ?_, ?_, ?_, ?_, ?_, ?_, ?_, ?_, ?_⟩
  · intro j hj
    dsimp only at hj ⊢
    by_cases hji : j = i
    · subst hji
      rfl
    · rw [Function.update_noteq hji] at hj
      have hco := h.lock_own j hj
      rw [hl] at hco
      cases hco
  · exact entered_congr_bullet h i _ (by rw [hc]; rfl)
  · exact inited_congr_bullet h i _ rfl
  · exact forall_update_core (fun c => c.inited = true → c.loc.past_cpu = true)
      s.cores i _ (fun j => h.inited_loc j)
      (fun hin => by
        have hpast := h.inited_loc i hin
        rw [hc] at hpast
        exact absurd hpast (by decide))
  · intro j hj
    dsimp only at hj ⊢
    by_cases hji : j = i
    · subst hji
      rw [Function.update_same] at hj
      exact h.master_id j hj
    · rw [Function.update_noteq hji] at hj
      exact h.master_id j hj
  · intro hne
    exact exists_master_update s.cores i _ rfl (h.master_ex hne)
  · exact h.invalid_err
  · exact forall_update_core (fun c => c.loc.past_elect = true →
        s.master_cpu_id ≠ INVALID_CPU_ID)
      s.cores i _ (fun j => h.past_elect_master j) (fun hpe => nomatch hpe)
  · exact forall_update_core (fun c => c.loc = Loc.earlyStep →
        c.master = true ∧ s.error = 0)
      s.cores i _ (fun j => h.early_inv j) (fun heq => nomatch heq)
  · exact forall_update_core (fun c => c.loc = Loc.cpuStep →
        s.error = 0 ∧ c.inited = false)
      s.cores i _ (fun j => h.cpu_inv j) (fun heq => nomatch heq)
  · exact forall_update_core (fun c => c.loc = Loc.afterInit →
        s.error ≠ 0 ∨ n ≤ s.initialized_cpus)
      s.cores i _ (fun j => h.after_init_inv j) (fun heq => nomatch heq)
  · intro j hj
    dsimp only at hj ⊢
    by_cases hji : j = i
    · subst hji
      rw [Function.update_same] at hj
      rcases hj with hj | hj <;> simp at hj
    · rw [Function.update_noteq hji] at hj
      have hlm := h.late_master j hj
      rw [Function.update_noteq hji]
      exact ⟨hlm.1, all_inited_update s.cores i _ rfl hlm.2⟩
  · exact forall_update_core (fun c => c.loc = Loc.lateStep → s.error = 0)
      s.cores i _ (fun j => h.late_err j) (fun heq => nomatch heq)
  · exact forall_update_core (fun c => c.loc = Loc.errCheckFinal →
        s.error ≠ 0 ∨ s.activate = true)
      s.cores i _ (fun j => h.err_check_inv j) (fun heq => nomatch heq)
  · intro hact
    obtain ⟨he, hall, hex⟩ := h.activ_inv hact
    exact ⟨he, all_inited_update s.cores i _ rfl hall,
      activ_exists_update s.cores i _ (by rw [hc]; decide)
        (by rw [hc]; decide) hex⟩
  · exact forall_update_core (fun c => c.loc = Loc.activated →
        s.activate = true)
      s.cores i _ (fun j => h.activated_inv j) (fun heq => nomatch heq)
  · exact forall_update_core (fun c => c.loc = Loc.restore →
        s.error ≠ 0 ∧ (c.master = true → s.shutdown_done = true) ∧
        c.restored = false)
      s.cores i _ (fun j => h.restore_inv j) (fun heq => nomatch heq)
  · exact forall_update_core (fun c => c.loc = Loc.failedDone →
        s.error ≠ 0 ∧ c.ret = some s.error ∧ c.restored = true ∧
        (c.master = true → s.shutdown_done = true))
      s.cores i _ (fun j => h.done_inv j) (fun heq => nomatch heq)
  · exact forall_update_core (fun c => c.restored = true →
        c.loc = Loc.failedDone)
      s.cores i _ (fun j => h.restored_loc j)
      (fun hre => by
        have hdone := h.restored_loc i hre
        rw [hc] at hdone
        exact absurd hdone (by decide))

/-- Invariant preservation for the election of the master (line 246-251)
together with the first statement of init_early, the store
master_cpu_id = cpu_id (line 41). -/
theorem inv_elect_master {n : Nat} {s : St n} (hn : n ≤ INVALID_CPU_ID)
    (h : Inv s) (i : Fin n)
    (hl : s.init_lock = some i) (hc : (s.cores i).loc = Loc.elect)
    (hm : s.master_cpu_id = INVALID_CPU_ID) :
    Inv { s.setCore i { s.cores i with loc := Loc.earlyStep, master := true } with
      master_cpu_id := i.val } := by
  simp only [St.setCore]
  refine ⟨?_, ?_, ?_, ?_, ?_, ?_, ?_, ?_, ?_, ?_, ?_, ?_, ?_, ?_, ?_, ?_, ?_, ?_, ?_⟩
  · intro j hj
    dsimp only at hj ⊢
    by_cases hji : j = i
    · subst hji
      exact hl
    · rw [Function.update_noteq hji] at hj
      exact h.lock_own j hj
  · exact entered_congr_bullet h i _ (by rw [hc]; rfl)
  · exact inited_congr_bullet h i _ rfl
  · exact forall_update_core (fun c => c.inited = true → c.loc.past_cpu = true)
      s.cores i _ (fun j => h.inited_loc j)
      (fun hin => by
        have hpast := h.inited_loc i hin
        rw [hc] at hpast
        exact absurd hpast (by decide))
  · intro j hj
    dsimp only at hj ⊢
    by_cases hji : j = i
    · subst hji
      rfl
    · rw [Function.update_noteq hji] at hj
      have hspec := h.master_id j hj
      rw [hm] at hspec
      have hjn := j.isLt
      exfalso
      omega
  · intro _
    refine ⟨i, ?_⟩
    dsimp only
    rw [Function.update_same]
  · intro heq
    have h1 : i.val = INVALID_CPU_ID := heq
    have h2 := i.isLt
    exfalso
    omega
  · intro j _
    intro heq
    have h1 : i.val = INVALID_CPU_ID := heq
    have h2 := i.isLt
    exfalso
    omega
  · intro j hj
    dsimp only at hj ⊢
    by_cases hji : j = i
    · subst hji
      rw [Function.update_same]
      exact ⟨rfl, h.invalid_err hm⟩
    · rw [Function.update_noteq hji] at hj
      rw [Function.update_noteq hji]
      exact h.early_inv j hj
  · exact forall_update_core (fun c => c.loc = Loc.cpuStep →
        s.error = 0 ∧ c.inited = false)
      s.cores i _ (fun j => h.cpu_inv j) (fun heq => nomatch heq)
  · exact forall_update_core (fun c => c.loc = Loc.afterInit →
        s.error ≠ 0 ∨ n ≤ s.initialized_cpus)
      s.cores i _ (fun j => h.after_init_inv j) (fun heq => nomatch heq)
  · intro j hj
    dsimp only at hj ⊢
    by_cases hji : j = i
    · subst hji
      rw [Function.update_same] at hj
      rcases hj with hj | hj <;> simp at hj
    · rw [Function.update_noteq hji] at hj
      have hlm := h.late_master j hj
      rw [Function.update_noteq hji]
      exact ⟨hlm.1, all_inited_update s.cores i _ rfl hlm.2⟩
  · exact forall_update_core (fun c => c.loc = Loc.lateStep → s.error = 0)
      s.cores i _ (fun j => h.late_err j) (fun heq => nomatch heq)
  · exact forall_update_core (fun c => c.loc = Loc.errCheckFinal →
        s.error ≠ 0 ∨ s.activate = true)
      s.cores i _ (fun j => h.err_check_inv j) (fun heq => nomatch heq)
  · intro hact
    obtain ⟨he, hall, m, hm2, hloc⟩ := h.activ_inv hact
    have hid := h.master_id m hm2
    rw [hm] at hid
    have hmn := m.isLt
    exfalso
    omega
  · exact forall_update_core (fun c => c.loc = Loc.activated →
        s.activate = true)
      s.cores i _ (fun j => h.activated_inv j) (fun heq => nomatch heq)
  · exact forall_update_core (fun c => c.loc = Loc.restore →
        s.error ≠ 0 ∧ (c.master = true → s.shutdown_done = true) ∧
        c.restored = false)
      s.cores i _ (fun j => h.restore_inv j) (fun heq => nomatch heq)
  · exact forall_update_core (fun c => c.loc = Loc.failedDone →
        s.error ≠ 0 ∧ c.ret = some s.error ∧ c.restored = true ∧
        (c.master = true → s.shutdown_done = true))
      s.cores i _ (fun j => h.done_inv j) (fun heq => nomatch heq)
  · exact forall_update_core (fun c => c.restored = true →
        c.loc = Loc.failedDone)
      s.cores i _ (fun j => h.restored_loc j)
      (fun hre => by
        have hdone := h.restored_loc i hre
        rw [hc] at hdone
        exact absurd hdone (by decide))

/-- Invariant preservation for a secondary core finding the master slot
already claimed (line 246, else branch). -/
theorem inv_elect_secondary {n : Nat} {s : St n} (h : Inv s) (i : Fin n)
    (hl : s.init_lock = some i) (hc : (s.cores i).loc = Loc.elect)
    (hm : s.master_cpu_id ≠ INVALID_CPU_ID) :
    Inv (s.setLoc i Loc.checkErr) := by
  simp only [St.setLoc, St.setCore]
  refine ⟨?_, ?_, ?_, ?_, ?_, ?_, ?_, ?_, ?_, ?_, ?_, ?_, ?_, ?_, ?_, ?_, ?_, ?_, ?_⟩
  · intro j hj
    dsimp only at hj ⊢
    by_cases hji : j = i
    · subst hji
      exact hl
    · rw [Function.update_noteq hji] at hj
      exact h.lock_own j hj
  · exact entered_congr_bullet h i _ (by rw [hc]; rfl)
  · exact inited_congr_bullet h i _ rfl
  · exact forall_update_core (fun c => c.inited = true → c.loc.past_cpu = true)
      s.cores i _ (fun j => h.inited_loc j)
      (fun hin => by
        have hpast := h.inited_loc i hin
        rw [hc] at hpast
        exact absurd hpast (by decide))
  · intro j hj
    dsimp only at hj ⊢
    by_cases hji : j = i
    · subst hji
      rw [Function.update_same] at hj
      exact h.master_id j hj
    · rw [Function.update_noteq hji] at hj
      exact h.master_id j hj
  · intro hne
    exact exists_master_update s.cores i _ rfl (h.master_ex hne)
  · exact h.invalid_err
  · exact forall_update_core (fun c => c.loc.past_elect = true →
        s.master_cpu_id ≠ INVALID_CPU_ID)
      s.cores i _ (fun j => h.past_elect_master j) (fun _ => hm)
  · exact forall_update_core (fun c => c.loc = Loc.earlyStep →
        c.master = true ∧ s.error = 0)
      s.cores i _ (fun j => h.early_inv j) (fun heq => nomatch heq)
  · exact forall_update_core (fun c => c.loc = Loc.cpuStep →
        s.error = 0 ∧ c.inited = false)
      s.cores i _ (fun j => h.cpu_inv j) (fun heq => nomatch heq)
  · exact forall_update_core (fun c => c.loc = Loc.afterInit →
        s.error ≠ 0 ∨ n ≤ s.initialized_cpus)
      s.cores i _ (fun j => h.after_init_inv j) (fun heq => nomatch heq)
  · intro j hj
    dsimp only at hj ⊢
    by_cases hji : j = i
    · subst hji
      rw [Function.update_same] at hj
      rcases hj with hj | hj <;> simp at hj
    · rw [Function.update_noteq hji] at hj
      have hlm := h.late_master j hj
      rw [Function.update_noteq hji]
      exact ⟨hlm.1, all_inited_update s.cores i _ rfl hlm.2⟩
  · exact forall_update_core (fun c => c.loc = Loc.lateStep → s.error = 0)
      s.cores i _ (fun j => h.late_err j) (fun heq => nomatch heq)
  · exact forall_update_core (fun c => c.loc = Loc.errCheckFinal →
        s.error ≠ 0 ∨ s.activate = true)
      s.cores i _ (fun j => h.err_check_inv j) (fun heq => nomatch heq)
  · intro hact
    obtain ⟨he, hall, hex⟩ := h.activ_inv hact
    exact ⟨he, all_inited_update s.cores i _ rfl hall,
      activ_exists_update s.cores i _ (by rw [hc]; decide)
        (by rw [hc]; decide) hex⟩
  · exact forall_update_core (fun c => c.loc = Loc.activated →
        s.activate = true)
      s.cores i _ (fun j => h.activated_inv j) (fun heq => nomatch heq)
  · exact forall_update_core (fun c => c.loc = Loc.restore →
        s.error ≠ 0 ∧ (c.master = true → s.shutdown_done = true) ∧
        c.restored = false)
      s.cores i _ (fun j => h.restore_inv j) (fun heq => nomatch heq)
  · exact forall_update_core (fun c => c.loc = Loc.failedDone →
        s.error ≠ 0 ∧ c.ret = some s.error ∧ c.restored = true ∧
        (c.master = true → s.shutdown_done = true))
      s.cores i _ (fun j => h.done_inv j) (fun heq => nomatch heq)
  · exact forall_update_core (fun c => c.restored = true →
        c.loc = Loc.failedDone)
      s.cores i _ (fun j => h.restored_loc j)
      (fun hre => by
        have hdone := h.restored_loc i hre
        rw [hc] at hdone
        exact absurd hdone (by decide))

/-- Invariant preservation for a successful fallible call inside init_early, which stores 0 to the error channel (e.g. line 56) and continues. -/
theorem inv_early_call_ok {n : Nat} {s : St n} (h : Inv s) (i : Fin n)
    (hl : s.init_lock = some i) (hc : (s.cores i).loc = Loc.earlyStep) :
    Inv ({ s with error := 0 }) := by
  refine ⟨?_, ?_, ?_, ?_, ?_, ?_, ?_, ?_, ?_, ?_, ?_, ?_, ?_, ?_, ?_, ?_, ?_, ?_, ?_⟩
  · exact h.lock_own
  · exact h.entered_eq
  · exact h.inited_eq
  · exact h.inited_loc
  · exact h.master_id
  · exact h.master_ex
  · intro _
    rfl
  · exact h.past_elect_master
  · intro j hj
    exact ⟨(h.early_inv j hj).1, rfl⟩
  · intro j hj
    exact ⟨rfl, (h.cpu_inv j hj).2⟩
  · intro j hj
    rcases h.after_init_inv j hj with he2 | hcnt
    · exact absurd (h.early_inv i hc).2 he2
    · exact Or.inr hcnt
  · exact h.late_master
  · intro j _
    rfl
  · intro j hj
    rcases h.err_check_inv j hj with he2 | ha
    · exact absurd (h.early_inv i hc).2 he2
    · exact Or.inr ha
  · intro hact
    obtain ⟨he2, hall, hex⟩ := h.activ_inv hact
    exact ⟨rfl, hall, hex⟩
  · exact h.activated_inv
  · intro j hj
    exact absurd (h.early_inv i hc).2 (h.restore_inv j hj).1
  · intro j hj
    exact absurd (h.early_inv i hc).2 (h.done_inv j hj).1
  · exact h.restored_loc

/-- Invariant preservation for a failing call inside init_early, which stores the negative code to the error channel and makes init_early return (e.g. lines 56-58). -/
theorem inv_early_call_fail {n : Nat} {s : St n} (h : Inv s) (i : Fin n)
    (e : Int) (he : e < 0) (hl : s.init_lock = some i) (hc : (s.cores i).loc = Loc.earlyStep) :
    Inv ({ s.setLoc i Loc.checkErr with error := e }) := by
  simp only [St.setLoc, St.setCore]
  refine ⟨?_, ?_, ?_, ?_, ?_, ?_, ?_, ?_, ?_, ?_, ?_, ?_, ?_, ?_, ?_, ?_, ?_, ?_, ?_⟩
  · intro j hj
    dsimp only at hj ⊢
    by_cases hji : j = i
    · subst hji
      exact hl
    · rw [Function.update_noteq hji] at hj
      exact h.lock_own j hj
  · exact entered_congr_bullet h i _ (by rw [hc]; rfl)
  · exact inited_congr_bullet h i _ rfl
  · exact forall_update_core (fun c => c.inited = true → c.loc.past_cpu = true)
      s.cores i _ (fun j => h.inited_loc j)
      (fun hin => by
        have hpast := h.inited_loc i hin
        rw [hc] at hpast
        exact absurd hpast (by decide))
  · intro j hj
    dsimp only at hj ⊢
    by_cases hji : j = i
    · subst hji
      rw [Function.update_same] at hj
      exact h.master_id j hj
    · rw [Function.update_noteq hji] at hj
      exact h.master_id j hj
  · intro hne
    exact exists_master_update s.cores i _ rfl (h.master_ex hne)
  · intro hinv
    exact absurd hinv (h.past_elect_master i (by rw [hc]; rfl))
  · exact forall_update_core (fun c => c.loc.past_elect = true →
        s.master_cpu_id ≠ INVALID_CPU_ID)
      s.cores i _ (fun j => h.past_elect_master j)
      (fun _ => h.past_elect_master i (by rw [hc]; rfl))
  · intro j hj
    dsimp only at hj ⊢
    by_cases hji : j = i
    · subst hji
      rw [Function.update_same] at hj
      simp at hj
    · rw [Function.update_noteq hji] at hj
      rw [Function.update_noteq hji]
      have h1 := h.early_inv j hj
      have h2 := h.early_inv i hc
      exact absurd (master_unique h h1.1 h2.1) hji
  · intro j hj
    dsimp only at hj ⊢
    by_cases hji : j = i
    · subst hji
      rw [Function.update_same] at hj
      simp at hj
    · rw [Function.update_noteq hji] at hj
      have hlo := h.lock_own j (by rw [hj]; rfl)
      rw [hl] at hlo
      exact absurd (Option.some.inj hlo).symm hji
  · intro j _
    exact Or.inl (ne_of_lt he)
  · intro j hj
    dsimp only at hj ⊢
    by_cases hji : j = i
    · subst hji
      rw [Function.update_same] at hj
      rcases hj with hj | hj <;> simp at hj
    · rw [Function.update_noteq hji] at hj
      have h1 := (h.late_master j hj).1
      have h2 := (h.early_inv i hc).1
      exact absurd (master_unique h h1 h2) hji
  · intro j hj
    dsimp only at hj ⊢
    by_cases hji : j = i
    · subst hji
      rw [Function.update_same] at hj
      simp at hj
    · rw [Function.update_noteq hji] at hj
      have h1 := (h.late_master j (Or.inl hj)).1
      have h2 := (h.early_inv i hc).1
      exact absurd (master_unique h h1 h2) hji
  · intro j _
    exact Or.inl (ne_of_lt he)
  · intro hact
    obtain ⟨he2, hall, m, hm2, hloc⟩ := h.activ_inv hact
    have h2 := (h.early_inv i hc).1
    have hmi := master_unique h hm2 h2
    subst hmi
    rw [hc] at hloc
    rcases hloc with hl2 | hl2 <;> simp at hl2
  · exact forall_update_core (fun c => c.loc = Loc.activated →
        s.activate = true)
      s.cores i _ (fun j => h.activated_inv j) (fun heq => nomatch heq)
  · intro j hj
    dsimp only at hj ⊢
    by_cases hji : j = i
    · subst hji
      rw [Function.update_same] at hj
      simp at hj
    · rw [Function.update_noteq hji] at hj
      exact absurd (h.early_inv i hc).2 (h.restore_inv j hj).1
  · intro j hj
    dsimp only at hj ⊢
    by_cases hji : j = i
    · subst hji
      rw [Function.update_same] at hj
      simp at hj
    · rw [Function.update_noteq hji] at hj
      exact absurd (h.early_inv i hc).2 (h.done_inv j hj).1
  · exact forall_update_core (fun c => c.restored = true →
        c.loc = Loc.failedDone)
      s.cores i _ (fun j => h.restored_loc j)
      (fun hre => by
        have hdone := h.restored_loc i hre
        rw [hc] at hdone
        exact absurd hdone (by decide))

/-- Invariant preservation for init_early completing successfully and the master reaching the error check of line 253. -/
theorem inv_early_finish {n : Nat} {s : St n} (h : Inv s) (i : Fin n)
    (hl : s.init_lock = some i) (hc : (s.cores i).loc = Loc.earlyStep) :
    Inv (s.setLoc i Loc.checkErr) := by
  simp only [St.setLoc, St.setCore]
  refine ⟨?_, ?_, ?_, ?_, ?_, ?_, ?_, ?_, ?_, ?_, ?_, ?_, ?_, ?_, ?_, ?_, ?_, ?_, ?_⟩
  · intro j hj
    dsimp only at hj ⊢
    by_cases hji : j = i
    · subst hji
      exact hl
    · rw [Function.update_noteq hji] at hj
      exact h.lock_own j hj
  · exact entered_congr_bullet h i _ (by rw [hc]; rfl)
  · exact inited_congr_bullet h i _ rfl
  · exact forall_update_core (fun c => c.inited = true → c.loc.past_cpu = true)
      s.cores i _ (fun j => h.inited_loc j)
      (fun hin => by
        have hpast := h.inited_loc i hin
        rw [hc] at hpast
        exact absurd hpast (by decide))
  · intro j hj
    dsimp only at hj ⊢
    by_cases hji : j = i
    · subst hji
      rw [Function.update_same] at hj
      exact h.master_id j hj
    · rw [Function.update_noteq hji] at hj
      exact h.master_id j hj
  · intro hne
    exact exists_master_update s.cores i _ rfl (h.master_ex hne)
  · exact h.invalid_err
  · exact forall_update_core (fun c => c.loc.past_elect = true →
        s.master_cpu_id ≠ INVALID_CPU_ID)
      s.cores i _ (fun j => h.past_elect_master j)
      (fun _ => h.past_elect_master i (by rw [hc]; rfl))
  · exact forall_update_core (fun c => c.loc = Loc.earlyStep →
        c.master = true ∧ s.error = 0)
      s.cores i _ (fun j => h.early_inv j) (fun heq => nomatch heq)
  · exact forall_update_core (fun c => c.loc = Loc.cpuStep →
        s.error = 0 ∧ c.inited = false)
      s.cores i _ (fun j => h.cpu_inv j) (fun heq => nomatch heq)
  · exact forall_update_core (fun c => c.loc = Loc.afterInit →
        s.error ≠ 0 ∨ n ≤ s.initialized_cpus)
      s.cores i _ (fun j => h.after_init_inv j) (fun heq => nomatch heq)
  · intro j hj
    dsimp only at hj ⊢
    by_cases hji : j = i
    · subst hji
      rw [Function.update_same] at hj
      rcases hj with hj | hj <;> simp at hj
    · rw [Function.update_noteq hji] at hj
      have hlm := h.late_master j hj
      rw [Function.update_noteq hji]
      exact ⟨hlm.1, all_inited_update s.cores i _ rfl hlm.2⟩
  · exact forall_update_core (fun c => c.loc = Loc.lateStep → s.error = 0)
      s.cores i _ (fun j => h.late_err j) (fun heq => nomatch heq)
  · exact forall_update_core (fun c => c.loc = Loc.errCheckFinal →
        s.error ≠ 0 ∨ s.activate = true)
      s.cores i _ (fun j => h.err_check_inv j) (fun heq => nomatch heq)
  · intro hact
    obtain ⟨he2, hall, hex⟩ := h.activ_inv hact
    exact ⟨he2, all_inited_update s.cores i _ rfl hall,
      activ_exists_update s.cores i _ (by rw [hc]; decide)
        (by rw [hc]; decide) hex⟩
  · exact forall_update_core (fun c => c.loc = Loc.activated →
        s.activate = true)
      s.cores i _ (fun j => h.activated_inv j) (fun heq => nomatch heq)
  · exact forall_update_core (fun c => c.loc = Loc.restore →
        s.error ≠ 0 ∧ (c.master = true → s.shutdown_done = true) ∧
        c.restored = false)
      s.cores i _ (fun j => h.restore_inv j) (fun heq => nomatch heq)
  · exact forall_update_core (fun c => c.loc = Loc.failedDone →
        s.error ≠ 0 ∧ c.ret = some s.error ∧ c.restored = true ∧
        (c.master = true → s.shutdown_done = true))
      s.cores i _ (fun j => h.done_inv j) (fun heq => nomatch heq)
  · exact forall_update_core (fun c => c.restored = true →
        c.loc = Loc.failedDone)
      s.cores i _ (fun j => h.restored_loc j)
      (fun hre => by
        have hdone := h.restored_loc i hre
        rw [hc] at hdone
        exact absurd hdone (by decide))

/-- Invariant preservation for a core entering cpu_init with the error channel still zero (line 253-254). -/
theorem inv_cpu_init_begin {n : Nat} {s : St n} (h : Inv s) (i : Fin n)
    (hl : s.init_lock = some i) (hc : (s.cores i).loc = Loc.checkErr) (herr : s.error = 0) :
    Inv (s.setLoc i Loc.cpuStep) := by
  simp only [St.setLoc, St.setCore]
  refine ⟨?_, ?_, ?_, ?_, ?_, ?_, ?_, ?_, ?_, ?_, ?_, ?_, ?_, ?_, ?_, ?_, ?_, ?_, ?_⟩
  · intro j hj
    dsimp only at hj ⊢
    by_cases hji : j = i
    · subst hji
      exact hl
    · rw [Function.update_noteq hji] at hj
      exact h.lock_own j hj
  · exact entered_congr_bullet h i _ (by rw [hc]; rfl)
  · exact inited_congr_bullet h i _ rfl
  · exact forall_update_core (fun c => c.inited = true → c.loc.past_cpu = true)
      s.cores i _ (fun j => h.inited_loc j)
      (fun hin => by
        have hpast := h.inited_loc i hin
        rw [hc] at hpast
        exact absurd hpast (by decide))
  · intro j hj
    dsimp only at hj ⊢
    by_cases hji : j = i
    · subst hji
      rw [Function.update_same] at hj
      exact h.master_id j hj
    · rw [Function.update_noteq hji] at hj
      exact h.master_id j hj
  · intro hne
    exact exists_master_update s.cores i _ rfl (h.master_ex hne)
  · exact h.invalid_err
  · exact forall_update_core (fun c => c.loc.past_elect = true →
        s.master_cpu_id ≠ INVALID_CPU_ID)
      s.cores i _ (fun j => h.past_elect_master j)
      (fun _ => h.past_elect_master i (by rw [hc]; rfl))
  · exact forall_update_core (fun c => c.loc = Loc.earlyStep →
        c.master = true ∧ s.error = 0)
      s.cores i _ (fun j => h.early_inv j) (fun heq => nomatch heq)
  · exact forall_update_core (fun c => c.loc = Loc.cpuStep →
        s.error = 0 ∧ c.inited = false)
      s.cores i _ (fun j => h.cpu_inv j)
      (fun _ => ⟨herr, not_inited_of_loc h (by rw [hc]; rfl)⟩)
  · exact forall_update_core (fun c => c.loc = Loc.afterInit →
        s.error ≠ 0 ∨ n ≤ s.initialized_cpus)
      s.cores i _ (fun j => h.after_init_inv j) (fun heq => nomatch heq)
  · intro j hj
    dsimp only at hj ⊢
    by_cases hji : j = i
    · subst hji
      rw [Function.update_same] at hj
      rcases hj with hj | hj <;> simp at hj
    · rw [Function.update_noteq hji] at hj
      have hlm := h.late_master j hj
      rw [Function.update_noteq hji]
      exact ⟨hlm.1, all_inited_update s.cores i _ rfl hlm.2⟩
  · exact forall_update_core (fun c => c.loc = Loc.lateStep → s.error = 0)
      s.cores i _ (fun j => h.late_err j) (fun heq => nomatch heq)
  · exact forall_update_core (fun c => c.loc = Loc.errCheckFinal →
        s.error ≠ 0 ∨ s.activate = true)
      s.cores i _ (fun j => h.err_check_inv j) (fun heq => nomatch heq)
  · intro hact
    obtain ⟨he2, hall, hex⟩ := h.activ_inv hact
    exact ⟨he2, all_inited_update s.cores i _ rfl hall,
      activ_exists_update s.cores i _ (by rw [hc]; decide)
        (by rw [hc]; decide) hex⟩
  · exact forall_update_core (fun c => c.loc = Loc.activated →
        s.activate = true)
      s.cores i _ (fun j => h.activated_inv j) (fun heq => nomatch heq)
  · exact forall_update_core (fun c => c.loc = Loc.restore →
        s.error ≠ 0 ∧ (c.master = true → s.shutdown_done = true) ∧
        c.restored = false)
      s.cores i _ (fun j => h.restore_inv j) (fun heq => nomatch heq)
  · exact forall_update_core (fun c => c.loc = Loc.failedDone →
        s.error ≠ 0 ∧ c.ret = some s.error ∧ c.restored = true ∧
        (c.master = true → s.shutdown_done = true))
      s.cores i _ (fun j => h.done_inv j) (fun heq => nomatch heq)
  · exact forall_update_core (fun c => c.restored = true →
        c.loc = Loc.failedDone)
      s.cores i _ (fun j => h.restored_loc j)
      (fun hre => by
        have hdone := h.restored_loc i hre
        rw [hc] at hdone
        exact absurd hdone (by decide))

/-- Invariant preservation for a core skipping cpu_init because the error channel is already non-zero (line 253). -/
theorem inv_cpu_init_skip {n : Nat} {s : St n} (h : Inv s) (i : Fin n)
    (hl : s.init_lock = some i) (hc : (s.cores i).loc = Loc.checkErr) (herr : s.error ≠ 0) :
    Inv (s.setLoc i Loc.unlock2) := by
  simp only [St.setLoc, St.setCore]
  refine ⟨?_, ?_, ?_, ?_, ?_, ?_, ?_, ?_, ?_, ?_, ?_, ?_, ?_, ?_, ?_, ?_, ?_, ?_, ?_⟩
  · intro j hj
    dsimp only at hj ⊢
    by_cases hji : j = i
    · subst hji
      exact hl
    · rw [Function.update_noteq hji] at hj
      exact h.lock_own j hj
  · exact entered_congr_bullet h i _ (by rw [hc]; rfl)
  · exact inited_congr_bullet h i _ rfl
  · exact forall_update_core (fun c => c.inited = true → c.loc.past_cpu = true)
      s.cores i _ (fun j => h.inited_loc j) (fun _ => rfl)
  · intro j hj
    dsimp only at hj ⊢
    by_cases hji : j = i
    · subst hji
      rw [Function.update_same] at hj
      exact h.master_id j hj
    · rw [Function.update_noteq hji] at hj
      exact h.master_id j hj
  · intro hne
    exact exists_master_update s.cores i _ rfl (h.master_ex hne)
  · exact h.invalid_err
  · exact forall_update_core (fun c => c.loc.past_elect = true →
        s.master_cpu_id ≠ INVALID_CPU_ID)
      s.cores i _ (fun j => h.past_elect_master j)
      (fun _ => h.past_elect_master i (by rw [hc]; rfl))
  · exact forall_update_core (fun c => c.loc = Loc.earlyStep →
        c.master = true ∧ s.error = 0)
      s.cores i _ (fun j => h.early_inv j) (fun heq => nomatch heq)
  · exact forall_update_core (fun c => c.loc = Loc.cpuStep →
        s.error = 0 ∧ c.inited = false)
      s.cores i _ (fun j => h.cpu_inv j) (fun heq => nomatch heq)
  · exact forall_update_core (fun c => c.loc = Loc.afterInit →
        s.error ≠ 0 ∨ n ≤ s.initialized_cpus)
      s.cores i _ (fun j => h.after_init_inv j) (fun heq => nomatch heq)
  · intro j hj
    dsimp only at hj ⊢
    by_cases hji : j = i
    · subst hji
      rw [Function.update_same] at hj
      rcases hj with hj | hj <;> simp at hj
    · rw [Function.update_noteq hji] at hj
      have hlm := h.late_master j hj
      rw [Function.update_noteq hji]
      exact ⟨hlm.1, all_inited_update s.cores i _ rfl hlm.2⟩
  · exact forall_update_core (fun c => c.loc = Loc.lateStep → s.error = 0)
      s.cores i _ (fun j => h.late_err j) (fun heq => nomatch heq)
  · exact forall_update_core (fun c => c.loc = Loc.errCheckFinal →
        s.error ≠ 0 ∨ s.activate = true)
      s.cores i _ (fun j => h.err_check_inv j) (fun heq => nomatch heq)
  · intro hact
    obtain ⟨he2, hall, hex⟩ := h.activ_inv hact
    exact ⟨he2, all_inited_update s.cores i _ rfl hall,
      activ_exists_update s.cores i _ (by rw [hc]; decide)
        (by rw [hc]; decide) hex⟩
  · exact forall_update_core (fun c => c.loc = Loc.activated →
        s.activate = true)
      s.cores i _ (fun j => h.activated_inv j) (fun heq => nomatch heq)
  · exact forall_update_core (fun c => c.loc = Loc.restore →
        s.error ≠ 0 ∧ (c.master = true → s.shutdown_done = true) ∧
        c.restored = false)
      s.cores i _ (fun j => h.restore_inv j) (fun heq => nomatch heq)
  · exact forall_update_core (fun c => c.loc = Loc.failedDone →
        s.error ≠ 0 ∧ c.ret = some s.error ∧ c.restored = true ∧
        (c.master = true → s.shutdown_done = true))
      s.cores i _ (fun j => h.done_inv j) (fun heq => nomatch heq)
  · exact forall_update_core (fun c => c.restored = true →
        c.loc = Loc.failedDone)
      s.cores i _ (fun j => h.restored_loc j)
      (fun hre => by
        have hdone := h.restored_loc i hre
        rw [hc] at hdone
        exact absurd hdone (by decide))

/-- Invariant preservation for cpu_init failing: the single store error = err on the failed exit (line 174). -/
theorem inv_cpu_init_fail {n : Nat} {s : St n} (h : Inv s) (i : Fin n)
    (e : Int) (he : e < 0) (hl : s.init_lock = some i) (hc : (s.cores i).loc = Loc.cpuStep) :
    Inv ({ s.setLoc i Loc.unlock2 with error := e }) := by
  simp only [St.setLoc, St.setCore]
  refine ⟨?_, ?_, ?_, ?_, ?_, ?_, ?_, ?_, ?_, ?_, ?_, ?_, ?_, ?_, ?_, ?_, ?_, ?_, ?_⟩
  · intro j hj
    dsimp only at hj ⊢
    by_cases hji : j = i
    · subst hji
      exact hl
    · rw [Function.update_noteq hji] at hj
      exact h.lock_own j hj
  · exact entered_congr_bullet h i _ (by rw [hc]; rfl)
  · exact inited_congr_bullet h i _ rfl
  · exact forall_update_core (fun c => c.inited = true → c.loc.past_cpu = true)
      s.cores i _ (fun j => h.inited_loc j) (fun _ => rfl)
  · intro j hj
    dsimp only at hj ⊢
    by_cases hji : j = i
    · subst hji
      rw [Function.update_same] at hj
      exact h.master_id j hj
    · rw [Function.update_noteq hji] at hj
      exact h.master_id j hj
  · intro hne
    exact exists_master_update s.cores i _ rfl (h.master_ex hne)
  · intro hinv
    exact absurd hinv (h.past_elect_master i (by rw [hc]; rfl))
  · exact forall_update_core (fun c => c.loc.past_elect = true →
        s.master_cpu_id ≠ INVALID_CPU_ID)
      s.cores i _ (fun j => h.past_elect_master j)
      (fun _ => h.past_elect_master i (by rw [hc]; rfl))
  · intro j hj
    dsimp only at hj ⊢
    by_cases hji : j = i
    · subst hji
      rw [Function.update_same] at hj
      simp at hj
    · rw [Function.update_noteq hji] at hj
      rw [Function.update_noteq hji]
      have hlo := h.lock_own j (by rw [hj]; rfl)
      rw [hl] at hlo
      exact absurd (Option.some.inj hlo).symm hji
  · intro j hj
    dsimp only at hj ⊢
    by_cases hji : j = i
    · subst hji
      rw [Function.update_same] at hj
      simp at hj
    · rw [Function.update_noteq hji] at hj
      have hlo := h.lock_own j (by rw [hj]; rfl)
      rw [hl] at hlo
      exact absurd (Option.some.inj hlo).symm hji
  · intro j _
    exact Or.inl (ne_of_lt he)
  · intro j hj
    dsimp only at hj ⊢
    by_cases hji : j = i
    · subst hji
      rw [Function.update_same] at hj
      rcases hj with hj | hj <;> simp at hj
    · rw [Function.update_noteq hji] at hj
      have h1 := (h.late_master j hj).2 i
      have h2 := (h.cpu_inv i hc).2
      rw [h1] at h2
      cases h2
  · intro j hj
    dsimp only at hj ⊢
    by_cases hji : j = i
    · subst hji
      rw [Function.update_same] at hj
      simp at hj
    · rw [Function.update_noteq hji] at hj
      have h1 := (h.late_master j (Or.inl hj)).2 i
      have h2 := (h.cpu_inv i hc).2
      rw [h1] at h2
      cases h2
  · intro j _
    exact Or.inl (ne_of_lt he)
  · intro hact
    obtain ⟨he2, hall, hex⟩ := h.activ_inv hact
    have h1 := hall i
    have h2 := (h.cpu_inv i hc).2
    rw [h1] at h2
    cases h2
  · exact forall_update_core (fun c => c.loc = Loc.activated →
        s.activate = true)
      s.cores i _ (fun j => h.activated_inv j) (fun heq => nomatch heq)
  · intro j hj
    dsimp only at hj ⊢
    by_cases hji : j = i
    · subst hji
      rw [Function.update_same] at hj
      simp at hj
    · rw [Function.update_noteq hji] at hj
      exact absurd (h.cpu_inv i hc).1 (h.restore_inv j hj).1
  · intro j hj
    dsimp only at hj ⊢
    by_cases hji : j = i
    · subst hji
      rw [Function.update_same] at hj
      simp at hj
    · rw [Function.update_noteq hji] at hj
      exact absurd (h.cpu_inv i hc).1 (h.done_inv j hj).1
  · exact forall_update_core (fun c => c.restored = true →
        c.loc = Loc.failedDone)
      s.cores i _ (fun j => h.restored_loc j)
      (fun hre => by
        have hdone := h.restored_loc i hre
        rw [hc] at hdone
        exact absurd hdone (by decide))

/-- Invariant preservation for cpu_init succeeding: the initialized_cpus increment behind the memory barrier (lines 168-169). -/
theorem inv_cpu_init_ok {n : Nat} {s : St n} (h : Inv s) (i : Fin n)
    (hl : s.init_lock = some i) (hc : (s.cores i).loc = Loc.cpuStep) :
    Inv ({ s.setCore i { s.cores i with loc := Loc.unlock2, inited := true } with
      initialized_cpus := s.initialized_cpus + 1 }) := by
  simp only [St.setCore]
  refine ⟨?_, ?_, ?_, ?_, ?_, ?_, ?_, ?_, ?_, ?_, ?_, ?_, ?_, ?_, ?_, ?_, ?_, ?_, ?_⟩
  · intro j hj
    dsimp only at hj ⊢
    by_cases hji : j = i
    · subst hji
      exact hl
    · rw [Function.update_noteq hji] at hj
      exact h.lock_own j hj
  · exact entered_congr_bullet h i _ (by rw [hc]; rfl)
  · exact inited_flip_bullet h i _ ((h.cpu_inv i hc).2) rfl
  · exact forall_update_core (fun c => c.inited = true → c.loc.past_cpu = true)
      s.cores i _ (fun j => h.inited_loc j) (fun _ => rfl)
  · intro j hj
    dsimp only at hj ⊢
    by_cases hji : j = i
    · subst hji
      rw [Function.update_same] at hj
      exact h.master_id j hj
    · rw [Function.update_noteq hji] at hj
      exact h.master_id j hj
  · intro hne
    exact exists_master_update s.cores i _ rfl (h.master_ex hne)
  · exact h.invalid_err
  · exact forall_update_core (fun c => c.loc.past_elect = true →
        s.master_cpu_id ≠ INVALID_CPU_ID)
      s.cores i _ (fun j => h.past_elect_master j)
      (fun _ => h.past_elect_master i (by rw [hc]; rfl))
  · exact forall_update_core (fun c => c.loc = Loc.earlyStep →
        c.master = true ∧ s.error = 0)
      s.cores i _ (fun j => h.early_inv j) (fun heq => nomatch heq)
  · exact forall_update_core (fun c => c.loc = Loc.cpuStep →
        s.error = 0 ∧ c.inited = false)
      s.cores i _ (fun j => h.cpu_inv j) (fun heq => nomatch heq)
  · intro j hj
    dsimp only at hj ⊢
    by_cases hji : j = i
    · subst hji
      rw [Function.update_same] at hj
      simp at hj
    · rw [Function.update_noteq hji] at hj
      rcases h.after_init_inv j hj with he2 | hcnt
      · exact Or.inl he2
      · exact Or.inr (Nat.le_succ_of_le hcnt)
  · intro j hj
    dsimp only at hj ⊢
    by_cases hji : j = i
    · subst hji
      rw [Function.update_same] at hj
      rcases hj with hj | hj <;> simp at hj
    · rw [Function.update_noteq hji] at hj
      have h1 := (h.late_master j hj).2 i
      have h2 := (h.cpu_inv i hc).2
      rw [h1] at h2
      cases h2
  · exact forall_update_core (fun c => c.loc = Loc.lateStep → s.error = 0)
      s.cores i _ (fun j => h.late_err j) (fun heq => nomatch heq)
  · exact forall_update_core (fun c => c.loc = Loc.errCheckFinal →
        s.error ≠ 0 ∨ s.activate = true)
      s.cores i _ (fun j => h.err_check_inv j) (fun heq => nomatch heq)
  · intro hact
    obtain ⟨he2, hall, hex⟩ := h.activ_inv hact
    have h1 := hall i
    have h2 := (h.cpu_inv i hc).2
    rw [h1] at h2
    cases h2
  · exact forall_update_core (fun c => c.loc = Loc.activated →
        s.activate = true)
      s.cores i _ (fun j => h.activated_inv j) (fun heq => nomatch heq)
  · exact forall_update_core (fun c => c.loc = Loc.restore →
        s.error ≠ 0 ∧ (c.master = true → s.shutdown_done = true) ∧
        c.restored = false)
      s.cores i _ (fun j => h.restore_inv j) (fun heq => nomatch heq)
  · exact forall_update_core (fun c => c.loc = Loc.failedDone →
        s.error ≠ 0 ∧ c.ret = some s.error ∧ c.restored = true ∧
        (c.master = true → s.shutdown_done = true))
      s.cores i _ (fun j => h.done_inv j) (fun heq => nomatch heq)
  · exact forall_update_core (fun c => c.restored = true →
        c.loc = Loc.failedDone)
      s.cores i _ (fun j => h.restored_loc j)
      (fun hre => by
        have hdone := h.restored_loc i hre
        rw [hc] at hdone
        exact absurd hdone (by decide))

/-- Invariant preservation for the lock release after per-CPU init (line 256). -/
theorem inv_release_entry_lock {n : Nat} {s : St n} (h : Inv s) (i : Fin n)
    (hl : s.init_lock = some i) (hc : (s.cores i).loc = Loc.unlock2) :
    Inv ({ s.setLoc i Loc.waitInit with init_lock := none }) := by
  simp only [St.setLoc, St.setCore]
  refine ⟨?_, ?_, ?_, ?_, ?_, ?_, ?_, ?_, ?_, ?_, ?_, ?_, ?_, ?_, ?_, ?_, ?_, ?_, ?_⟩
  · intro j hj
    dsimp only at hj ⊢
    by_cases hji : j = i
    · subst hji
      rw [Function.update_same] at hj
      simp [Loc.locked] at hj
    · rw [Function.update_noteq hji] at hj
      have hco := h.lock_own j hj
      rw [hl] at hco
      exact absurd (Option.some.inj hco).symm hji
  · exact entered_congr_bullet h i _ (by rw [hc]; rfl)
  · exact inited_congr_bullet h i _ rfl
  · exact forall_update_core (fun c => c.inited = true → c.loc.past_cpu = true)
      s.cores i _ (fun j => h.inited_loc j) (fun _ => rfl)
  · intro j hj
    dsimp only at hj ⊢
    by_cases hji : j = i
    · subst hji
      rw [Function.update_same] at hj
      exact h.master_id j hj
    · rw [Function.update_noteq hji] at hj
      exact h.master_id j hj
  · intro hne
    exact exists_master_update s.cores i _ rfl (h.master_ex hne)
  · exact h.invalid_err
  · exact forall_update_core (fun c => c.loc.past_elect = true →
        s.master_cpu_id ≠ INVALID_CPU_ID)
      s.cores i _ (fun j => h.past_elect_master j)
      (fun _ => h.past_elect_master i (by rw [hc]; rfl))
  · exact forall_update_core (fun c => c.loc = Loc.earlyStep →
        c.master = true ∧ s.error = 0)
      s.cores i _ (fun j => h.early_inv j) (fun heq => nomatch heq)
  · exact forall_update_core (fun c => c.loc = Loc.cpuStep →
        s.error = 0 ∧ c.inited = false)
      s.cores i _ (fun j => h.cpu_inv j) (fun heq => nomatch heq)
  · exact forall_update_core (fun c => c.loc = Loc.afterInit →
        s.error ≠ 0 ∨ n ≤ s.initialized_cpus)
      s.cores i _ (fun j => h.after_init_inv j) (fun heq => nomatch heq)
  · intro j hj
    dsimp only at hj ⊢
    by_cases hji : j = i
    · subst hji
      rw [Function.update_same] at hj
      rcases hj with hj | hj <;> simp at hj
    · rw [Function.update_noteq hji] at hj
      have hlm := h.late_master j hj
      rw [Function.update_noteq hji]
      exact ⟨hlm.1, all_inited_update s.cores i _ rfl hlm.2⟩
  · exact forall_update_core (fun c => c.loc = Loc.lateStep → s.error = 0)
      s.cores i _ (fun j => h.late_err j) (fun heq => nomatch heq)
  · exact forall_update_core (fun c => c.loc = Loc.errCheckFinal →
        s.error ≠ 0 ∨ s.activate = true)
      s.cores i _ (fun j => h.err_check_inv j) (fun heq => nomatch heq)
  · intro hact
    obtain ⟨he2, hall, hex⟩ := h.activ_inv hact
    exact ⟨he2, all_inited_update s.cores i _ rfl hall,
      activ_exists_update s.cores i _ (by rw [hc]; decide)
        (by rw [hc]; decide) hex⟩
  · exact forall_update_core (fun c => c.loc = Loc.activated →
        s.activate = true)
      s.cores i _ (fun j => h.activated_inv j) (fun heq => nomatch heq)
  · exact forall_update_core (fun c => c.loc = Loc.restore →
        s.error ≠ 0 ∧ (c.master = true → s.shutdown_done = true) ∧
        c.restored = false)
      s.cores i _ (fun j => h.restore_inv j) (fun heq => nomatch heq)
  · exact forall_update_core (fun c => c.loc = Loc.failedDone →
        s.error ≠ 0 ∧ c.ret = some s.error ∧ c.restored = true ∧
        (c.master = true → s.shutdown_done = true))
      s.cores i _ (fun j => h.done_inv j) (fun heq => nomatch heq)
  · exact forall_update_core (fun c => c.restored = true →
        c.loc = Loc.failedDone)
      s.cores i _ (fun j => h.restored_loc j)
      (fun hre => by
        have hdone := h.restored_loc i hre
        rw [hc] at hdone
        exact absurd hdone (by decide))

/-- Invariant preservation for a core leaving the initialized_cpus busy-wait (line 258): it saw a non-zero error or the full count. -/
theorem inv_pass_init_wait {n : Nat} {s : St n} (h : Inv s) (i : Fin n)
    (hc : (s.cores i).loc = Loc.waitInit) (hw : s.error ≠ 0 ∨ n ≤ s.initialized_cpus) :
    Inv (s.setLoc i Loc.afterInit) := by
  simp only [St.setLoc, St.setCore]
  refine ⟨?_, ?_, ?_, ?_, ?_, ?_, ?_, ?_, ?_, ?_, ?_, ?_, ?_, ?_, ?_, ?_, ?_, ?_, ?_⟩
  · intro j hj
    dsimp only at hj ⊢
    by_cases hji : j = i
    · subst hji
      rw [Function.update_same] at hj
      simp [Loc.locked] at hj
    · rw [Function.update_noteq hji] at hj
      exact h.lock_own j hj
  · exact entered_congr_bullet h i _ (by rw [hc]; rfl)
  · exact inited_congr_bullet h i _ rfl
  · exact forall_update_core (fun c => c.inited = true → c.loc.past_cpu = true)
      s.cores i _ (fun j => h.inited_loc j) (fun _ => rfl)
  · intro j hj
    dsimp only at hj ⊢
    by_cases hji : j = i
    · subst hji
      rw [Function.update_same] at hj
      exact h.master_id j hj
    · rw [Function.update_noteq hji] at hj
      exact h.master_id j hj
  · intro hne
    exact exists_master_update s.cores i _ rfl (h.master_ex hne)
  · exact h.invalid_err
  · exact forall_update_core (fun c => c.loc.past_elect = true →
        s.master_cpu_id ≠ INVALID_CPU_ID)
      s.cores i _ (fun j => h.past_elect_master j)
      (fun _ => h.past_elect_master i (by rw [hc]; rfl))
  · exact forall_update_core (fun c => c.loc = Loc.earlyStep →
        c.master = true ∧ s.error = 0)
      s.cores i _ (fun j => h.early_inv j) (fun heq => nomatch heq)
  · exact forall_update_core (fun c => c.loc = Loc.cpuStep →
        s.error = 0 ∧ c.inited = false)
      s.cores i _ (fun j => h.cpu_inv j) (fun heq => nomatch heq)
  · exact forall_update_core (fun c => c.loc = Loc.afterInit →
        s.error ≠ 0 ∨ n ≤ s.initialized_cpus)
      s.cores i _ (fun j => h.after_init_inv j) (fun _ => hw)
  · intro j hj
    dsimp only at hj ⊢
    by_cases hji : j = i
    · subst hji
      rw [Function.update_same] at hj
      rcases hj with hj | hj <;> simp at hj
    · rw [Function.update_noteq hji] at hj
      have hlm := h.late_master j hj
      rw [Function.update_noteq hji]
      exact ⟨hlm.1, all_inited_update s.cores i _ rfl hlm.2⟩
  · exact forall_update_core (fun c => c.loc = Loc.lateStep → s.error = 0)
      s.cores i _ (fun j => h.late_err j) (fun heq => nomatch heq)
  · exact forall_update_core (fun c => c.loc = Loc.errCheckFinal →
        s.error ≠ 0 ∨ s.activate = true)
      s.cores i _ (fun j => h.err_check_inv j) (fun heq => nomatch heq)
  · intro hact
    obtain ⟨he2, hall, hex⟩ := h.activ_inv hact
    exact ⟨he2, all_inited_update s.cores i _ rfl hall,
      activ_exists_update s.cores i _ (by rw [hc]; decide)
        (by rw [hc]; decide) hex⟩
  · exact forall_update_core (fun c => c.loc = Loc.activated →
        s.activate = true)
      s.cores i _ (fun j => h.activated_inv j) (fun heq => nomatch heq)
  · exact forall_update_core (fun c => c.loc = Loc.restore →
        s.error ≠ 0 ∧ (c.master = true → s.shutdown_done = true) ∧
        c.restored = false)
      s.cores i _ (fun j => h.restore_inv j) (fun heq => nomatch heq)
  · exact forall_update_core (fun c => c.loc = Loc.failedDone →
        s.error ≠ 0 ∧ c.ret = some s.error ∧ c.restored = true ∧
        (c.master = true → s.shutdown_done = true))
      s.cores i _ (fun j => h.done_inv j) (fun heq => nomatch heq)
  · exact forall_update_core (fun c => c.restored = true →
        c.loc = Loc.failedDone)
      s.cores i _ (fun j => h.restored_loc j)
      (fun hre => by
        have hdone := h.restored_loc i hre
        rw [hc] at hdone
        exact absurd hdone (by decide))

/-- Invariant preservation for the master entering init_late with error still zero (line 261-262). -/
theorem inv_begin_late {n : Nat} {s : St n} (h : Inv s) (i : Fin n)
    (hc : (s.cores i).loc = Loc.afterInit) (herr : s.error = 0) (hm : (s.cores i).master = true) :
    Inv (s.setLoc i Loc.lateStep) := by
  simp only [St.setLoc, St.setCore]
  refine ⟨?_, ?_, ?_, ?_, ?_, ?_, ?_, ?_, ?_, ?_, ?_, ?_, ?_, ?_, ?_, ?_, ?_, ?_, ?_⟩
  · intro j hj
    dsimp only at hj ⊢
    by_cases hji : j = i
    · subst hji
      rw [Function.update_same] at hj
      simp [Loc.locked] at hj
    · rw [Function.update_noteq hji] at hj
      exact h.lock_own j hj
  · exact entered_congr_bullet h i _ (by rw [hc]; rfl)
  · exact inited_congr_bullet h i _ rfl
  · exact forall_update_core (fun c => c.inited = true → c.loc.past_cpu = true)
      s.cores i _ (fun j => h.inited_loc j) (fun _ => rfl)
  · intro j hj
    dsimp only at hj ⊢
    by_cases hji : j = i
    · subst hji
      rw [Function.update_same] at hj
      exact h.master_id j hj
    · rw [Function.update_noteq hji] at hj
      exact h.master_id j hj
  · intro hne
    exact exists_master_update s.cores i _ rfl (h.master_ex hne)
  · exact h.invalid_err
  · exact forall_update_core (fun c => c.loc.past_elect = true →
        s.master_cpu_id ≠ INVALID_CPU_ID)
      s.cores i _ (fun j => h.past_elect_master j)
      (fun _ => h.past_elect_master i (by rw [hc]; rfl))
  · exact forall_update_core (fun c => c.loc = Loc.earlyStep →
        c.master = true ∧ s.error = 0)
      s.cores i _ (fun j => h.early_inv j) (fun heq => nomatch heq)
  · exact forall_update_core (fun c => c.loc = Loc.cpuStep →
        s.error = 0 ∧ c.inited = false)
      s.cores i _ (fun j => h.cpu_inv j) (fun heq => nomatch heq)
  · exact forall_update_core (fun c => c.loc = Loc.afterInit →
        s.error ≠ 0 ∨ n ≤ s.initialized_cpus)
      s.cores i _ (fun j => h.after_init_inv j) (fun heq => nomatch heq)
  · have hall : ∀ m, (s.cores m).inited = true := by
      rcases h.after_init_inv i hc with he2 | hcnt
      · exact absurd herr he2
      · rw [h.inited_eq] at hcnt
        exact all_of_le_card s.cores (fun c0 => c0.inited) hcnt
    intro j hj
    dsimp only at hj ⊢
    by_cases hji : j = i
    · subst hji
      rw [Function.update_same]
      exact ⟨hm, all_inited_update s.cores j _ rfl hall⟩
    · rw [Function.update_noteq hji] at hj
      rw [Function.update_noteq hji]
      exact ⟨(h.late_master j hj).1, all_inited_update s.cores i _ rfl hall⟩
  · exact forall_update_core (fun c => c.loc = Loc.lateStep → s.error = 0)
      s.cores i _ (fun j => h.late_err j) (fun _ => herr)
  · exact forall_update_core (fun c => c.loc = Loc.errCheckFinal →
        s.error ≠ 0 ∨ s.activate = true)
      s.cores i _ (fun j => h.err_check_inv j) (fun heq => nomatch heq)
  · intro hact
    obtain ⟨he2, hall, hex⟩ := h.activ_inv hact
    exact ⟨he2, all_inited_update s.cores i _ rfl hall,
      activ_exists_update s.cores i _ (by rw [hc]; decide)
        (by rw [hc]; decide) hex⟩
  · exact forall_update_core (fun c => c.loc = Loc.activated →
        s.activate = true)
      s.cores i _ (fun j => h.activated_inv j) (fun heq => nomatch heq)
  · exact forall_update_core (fun c => c.loc = Loc.restore →
        s.error ≠ 0 ∧ (c.master = true → s.shutdown_done = true) ∧
        c.restored = false)
      s.cores i _ (fun j => h.restore_inv j) (fun heq => nomatch heq)
  · exact forall_update_core (fun c => c.loc = Loc.failedDone →
        s.error ≠ 0 ∧ c.ret = some s.error ∧ c.restored = true ∧
        (c.master = true → s.shutdown_done = true))
      s.cores i _ (fun j => h.done_inv j) (fun heq => nomatch heq)
  · exact forall_update_core (fun c => c.restored = true →
        c.loc = Loc.failedDone)
      s.cores i _ (fun j => h.restored_loc j)
      (fun hre => by
        have hdone := h.restored_loc i hre
        rw [hc] at hdone
        exact absurd hdone (by decide))

/-- Invariant preservation for a core taking the else branch of line 261 into the activation busy-wait. -/
theorem inv_skip_late {n : Nat} {s : St n} (h : Inv s) (i : Fin n)
    (hc : (s.cores i).loc = Loc.afterInit) (hnm : ¬(s.error = 0 ∧ (s.cores i).master = true)) :
    Inv (s.setLoc i Loc.waitActivate) := by
  simp only [St.setLoc, St.setCore]
  refine ⟨?_, ?_, ?_, ?_, ?_, ?_, ?_, ?_, ?_, ?_, ?_, ?_, ?_, ?_, ?_, ?_, ?_, ?_, ?_⟩
  · intro j hj
    dsimp only at hj ⊢
    by_cases hji : j = i
    · subst hji
      rw [Function.update_same] at hj
      simp [Loc.locked] at hj
    · rw [Function.update_noteq hji] at hj
      exact h.lock_own j hj
  · exact entered_congr_bullet h i _ (by rw [hc]; rfl)
  · exact inited_congr_bullet h i _ rfl
  · exact forall_update_core (fun c => c.inited = true → c.loc.past_cpu = true)
      s.cores i _ (fun j => h.inited_loc j) (fun _ => rfl)
  · intro j hj
    dsimp only at hj ⊢
    by_cases hji : j = i
    · subst hji
      rw [Function.update_same] at hj
      exact h.master_id j hj
    · rw [Function.update_noteq hji] at hj
      exact h.master_id j hj
  · intro hne
    exact exists_master_update s.cores i _ rfl (h.master_ex hne)
  · exact h.invalid_err
  · exact forall_update_core (fun c => c.loc.past_elect = true →
        s.master_cpu_id ≠ INVALID_CPU_ID)
      s.cores i _ (fun j => h.past_elect_master j)
      (fun _ => h.past_elect_master i (by rw [hc]; rfl))
  · exact forall_update_core (fun c => c.loc = Loc.earlyStep →
        c.master = true ∧ s.error = 0)
      s.cores i _ (fun j => h.early_inv j) (fun heq => nomatch heq)
  · exact forall_update_core (fun c => c.loc = Loc.cpuStep →
        s.error = 0 ∧ c.inited = false)
      s.cores i _ (fun j => h.cpu_inv j) (fun heq => nomatch heq)
  · exact forall_update_core (fun c => c.loc = Loc.afterInit →
        s.error ≠ 0 ∨ n ≤ s.initialized_cpus)
      s.cores i _ (fun j => h.after_init_inv j) (fun heq => nomatch heq)
  · intro j hj
    dsimp only at hj ⊢
    by_cases hji : j = i
    · subst hji
      rw [Function.update_same] at hj
      rcases hj with hj | hj <;> simp at hj
    · rw [Function.update_noteq hji] at hj
      have hlm := h.late_master j hj
      rw [Function.update_noteq hji]
      exact ⟨hlm.1, all_inited_update s.cores i _ rfl hlm.2⟩
  · exact forall_update_core (fun c => c.loc = Loc.lateStep → s.error = 0)
      s.cores i _ (fun j => h.late_err j) (fun heq => nomatch heq)
  · exact forall_update_core (fun c => c.loc = Loc.errCheckFinal →
        s.error ≠ 0 ∨ s.activate = true)
      s.cores i _ (fun j => h.err_check_inv j) (fun heq => nomatch heq)
  · intro hact
    obtain ⟨he2, hall, hex⟩ := h.activ_inv hact
    exact ⟨he2, all_inited_update s.cores i _ rfl hall,
      activ_exists_update s.cores i _ (by rw [hc]; decide)
        (by rw [hc]; decide) hex⟩
  · exact forall_update_core (fun c => c.loc = Loc.activated →
        s.activate = true)
      s.cores i _ (fun j => h.activated_inv j) (fun heq => nomatch heq)
  · exact forall_update_core (fun c => c.loc = Loc.restore →
        s.error ≠ 0 ∧ (c.master = true → s.shutdown_done = true) ∧
        c.restored = false)
      s.cores i _ (fun j => h.restore_inv j) (fun heq => nomatch heq)
  · exact forall_update_core (fun c => c.loc = Loc.failedDone →
        s.error ≠ 0 ∧ c.ret = some s.error ∧ c.restored = true ∧
        (c.master = true → s.shutdown_done = true))
      s.cores i _ (fun j => h.done_inv j) (fun heq => nomatch heq)
  · exact forall_update_core (fun c => c.restored = true →
        c.loc = Loc.failedDone)
      s.cores i _ (fun j => h.restored_loc j)
      (fun hre => by
        have hdone := h.restored_loc i hre
        rw [hc] at hdone
        exact absurd hdone (by decide))

/-- Invariant preservation for a successful fallible call inside init_late, which stores 0 to the error channel (e.g. line 192) and continues. -/
theorem inv_late_call_ok {n : Nat} {s : St n} (h : Inv s) (i : Fin n)
    (hc : (s.cores i).loc = Loc.lateStep) :
    Inv ({ s with error := 0 }) := by
  refine ⟨?_, ?_, ?_, ?_, ?_, ?_, ?_, ?_, ?_, ?_, ?_, ?_, ?_, ?_, ?_, ?_, ?_, ?_, ?_⟩
  · exact h.lock_own
  · exact h.entered_eq
  · exact h.inited_eq
  · exact h.inited_loc
  · exact h.master_id
  · exact h.master_ex
  · intro _
    rfl
  · exact h.past_elect_master
  · intro j hj
    exact ⟨(h.early_inv j hj).1, rfl⟩
  · intro j hj
    exact ⟨rfl, (h.cpu_inv j hj).2⟩
  · intro j hj
    rcases h.after_init_inv j hj with he2 | hcnt
    · exact absurd (h.late_err i hc) he2
    · exact Or.inr hcnt
  · exact h.late_master
  · intro j _
    rfl
  · intro j hj
    rcases h.err_check_inv j hj with he2 | ha
    · exact absurd (h.late_err i hc) he2
    · exact Or.inr ha
  · intro hact
    obtain ⟨he2, hall, hex⟩ := h.activ_inv hact
    exact ⟨rfl, hall, hex⟩
  · exact h.activated_inv
  · intro j hj
    exact absurd (h.late_err i hc) (h.restore_inv j hj).1
  · intro j hj
    exact absurd (h.late_err i hc) (h.done_inv j hj).1
  · exact h.restored_loc

/-- Invariant preservation for a failing call inside init_late, which stores the negative code to the error channel and makes init_late return (e.g. lines 192-194). -/
theorem inv_late_call_fail {n : Nat} {s : St n} (h : Inv s) (i : Fin n)
    (e : Int) (he : e < 0) (hc : (s.cores i).loc = Loc.lateStep) :
    Inv ({ s.setLoc i Loc.afterLate with error := e }) := by
  simp only [St.setLoc, St.setCore]
  refine ⟨?_, ?_, ?_, ?_, ?_, ?_, ?_, ?_, ?_, ?_, ?_, ?_, ?_, ?_, ?_, ?_, ?_, ?_, ?_⟩
  · intro j hj
    dsimp only at hj ⊢
    by_cases hji : j = i
    · subst hji
      rw [Function.update_same] at hj
      simp [Loc.locked] at hj
    · rw [Function.update_noteq hji] at hj
      exact h.lock_own j hj
  · exact entered_congr_bullet h i _ (by rw [hc]; rfl)
  · exact inited_congr_bullet h i _ rfl
  · exact forall_update_core (fun c => c.inited = true → c.loc.past_cpu = true)
      s.cores i _ (fun j => h.inited_loc j) (fun _ => rfl)
  · intro j hj
    dsimp only at hj ⊢
    by_cases hji : j = i
    · subst hji
      rw [Function.update_same] at hj
      exact h.master_id j hj
    · rw [Function.update_noteq hji] at hj
      exact h.master_id j hj
  · intro hne
    exact exists_master_update s.cores i _ rfl (h.master_ex hne)
  · intro hinv
    exact absurd hinv (h.past_elect_master i (by rw [hc]; rfl))
  · exact forall_update_core (fun c => c.loc.past_elect = true →
        s.master_cpu_id ≠ INVALID_CPU_ID)
      s.cores i _ (fun j => h.past_elect_master j)
      (fun _ => h.past_elect_master i (by rw [hc]; rfl))
  · intro j hj
    dsimp only at hj ⊢
    by_cases hji : j = i
    · subst hji
      rw [Function.update_same] at hj
      simp at hj
    · rw [Function.update_noteq hji] at hj
      rw [Function.update_noteq hji]
      have h1 := (h.early_inv j hj).1
      have h2 := (h.late_master i (Or.inl hc)).1
      exact absurd (master_unique h h1 h2) hji
  · intro j hj
    dsimp only at hj ⊢
    by_cases hji : j = i
    · subst hji
      rw [Function.update_same] at hj
      simp at hj
    · rw [Function.update_noteq hji] at hj
      have h1 := (h.late_master i (Or.inl hc)).2 j
      have h2 := (h.cpu_inv j hj).2
      rw [h1] at h2
      cases h2
  · intro j _
    exact Or.inl (ne_of_lt he)
  · intro j hj
    dsimp only at hj ⊢
    have hlm := h.late_master i (Or.inl hc)
    by_cases hji : j = i
    · subst hji
      rw [Function.update_same]
      exact ⟨hlm.1, all_inited_update s.cores j _ rfl hlm.2⟩
    · rw [Function.update_noteq hji] at hj
      rw [Function.update_noteq hji]
      exact ⟨(h.late_master j hj).1, all_inited_update s.cores i _ rfl hlm.2⟩
  · intro j hj
    dsimp only at hj ⊢
    by_cases hji : j = i
    · subst hji
      rw [Function.update_same] at hj
      simp at hj
    · rw [Function.update_noteq hji] at hj
      have h1 := (h.late_master j (Or.inl hj)).1
      have h2 := (h.late_master i (Or.inl hc)).1
      exact absurd (master_unique h h1 h2) hji
  · intro j _
    exact Or.inl (ne_of_lt he)
  · intro hact
    obtain ⟨he2, hall, m, hm2, hloc⟩ := h.activ_inv hact
    have h2 := (h.late_master i (Or.inl hc)).1
    have hmi := master_unique h hm2 h2
    subst hmi
    rw [hc] at hloc
    rcases hloc with hl2 | hl2 <;> simp at hl2
  · exact forall_update_core (fun c => c.loc = Loc.activated →
        s.activate = true)
      s.cores i _ (fun j => h.activated_inv j) (fun heq => nomatch heq)
  · intro j hj
    dsimp only at hj ⊢
    by_cases hji : j = i
    · subst hji
      rw [Function.update_same] at hj
      simp at hj
    · rw [Function.update_noteq hji] at hj
      exact absurd (h.late_err i hc) (h.restore_inv j hj).1
  · intro j hj
    dsimp only at hj ⊢
    by_cases hji : j = i
    · subst hji
      rw [Function.update_same] at hj
      simp at hj
    · rw [Function.update_noteq hji] at hj
      exact absurd (h.late_err i hc) (h.done_inv j hj).1
  · exact forall_update_core (fun c => c.restored = true →
        c.loc = Loc.failedDone)
      s.cores i _ (fun j => h.restored_loc j)
      (fun hre => by
        have hdone := h.restored_loc i hre
        rw [hc] at hdone
        exact absurd hdone (by decide))

/-- Invariant preservation for init_late returning successfully and the master reaching the check of line 263. -/
theorem inv_late_finish {n : Nat} {s : St n} (h : Inv s) (i : Fin n)
    (hc : (s.cores i).loc = Loc.lateStep) :
    Inv (s.setLoc i Loc.afterLate) := by
  simp only [St.setLoc, St.setCore]
  refine ⟨?_, ?_, ?_, ?_, ?_, ?_, ?_, ?_, ?_, ?_, ?_, ?_, ?_, ?_, ?_, ?_, ?_, ?_, ?_⟩
  · intro j hj
    dsimp only at hj ⊢
    by_cases hji : j = i
    · subst hji
      rw [Function.update_same] at hj
      simp [Loc.locked] at hj
    · rw [Function.update_noteq hji] at hj
      exact h.lock_own j hj
  · exact entered_congr_bullet h i _ (by rw [hc]; rfl)
  · exact inited_congr_bullet h i _ rfl
  · exact forall_update_core (fun c => c.inited = true → c.loc.past_cpu = true)
      s.cores i _ (fun j => h.inited_loc j) (fun _ => rfl)
  · intro j hj
    dsimp only at hj ⊢
    by_cases hji : j = i
    · subst hji
      rw [Function.update_same] at hj
      exact h.master_id j hj
    · rw [Function.update_noteq hji] at hj
      exact h.master_id j hj
  · intro hne
    exact exists_master_update s.cores i _ rfl (h.master_ex hne)
  · exact h.invalid_err
  · exact forall_update_core (fun c => c.loc.past_elect = true →
        s.master_cpu_id ≠ INVALID_CPU_ID)
      s.cores i _ (fun j => h.past_elect_master j)
      (fun _ => h.past_elect_master i (by rw [hc]; rfl))
  · exact forall_update_core (fun c => c.loc = Loc.earlyStep →
        c.master = true ∧ s.error = 0)
      s.cores i _ (fun j => h.early_inv j) (fun heq => nomatch heq)
  · exact forall_update_core (fun c => c.loc = Loc.cpuStep →
        s.error = 0 ∧ c.inited = false)
      s.cores i _ (fun j => h.cpu_inv j) (fun heq => nomatch heq)
  · exact forall_update_core (fun c => c.loc = Loc.afterInit →
        s.error ≠ 0 ∨ n ≤ s.initialized_cpus)
      s.cores i _ (fun j => h.after_init_inv j) (fun heq => nomatch heq)
  · intro j hj
    dsimp only at hj ⊢
    have hlm := h.late_master i (Or.inl hc)
    by_cases hji : j = i
    · subst hji
      rw [Function.update_same]
      exact ⟨hlm.1, all_inited_update s.cores j _ rfl hlm.2⟩
    · rw [Function.update_noteq hji] at hj
      rw [Function.update_noteq hji]
      exact ⟨(h.late_master j hj).1, all_inited_update s.cores i _ rfl hlm.2⟩
  · exact forall_update_core (fun c => c.loc = Loc.lateStep → s.error = 0)
      s.cores i _ (fun j => h.late_err j) (fun heq => nomatch heq)
  · exact forall_update_core (fun c => c.loc = Loc.errCheckFinal →
        s.error ≠ 0 ∨ s.activate = true)
      s.cores i _ (fun j => h.err_check_inv j) (fun heq => nomatch heq)
  · intro hact
    obtain ⟨he2, hall, hex⟩ := h.activ_inv hact
    exact ⟨he2, all_inited_update s.cores i _ rfl hall,
      activ_exists_update s.cores i _ (by rw [hc]; decide)
        (by rw [hc]; decide) hex⟩
  · exact forall_update_core (fun c => c.loc = Loc.activated →
        s.activate = true)
      s.cores i _ (fun j => h.activated_inv j) (fun heq => nomatch heq)
  · exact forall_update_core (fun c => c.loc = Loc.restore →
        s.error ≠ 0 ∧ (c.master = true → s.shutdown_done = true) ∧
        c.restored = false)
      s.cores i _ (fun j => h.restore_inv j) (fun heq => nomatch heq)
  · exact forall_update_core (fun c => c.loc = Loc.failedDone →
        s.error ≠ 0 ∧ c.ret = some s.error ∧ c.restored = true ∧
        (c.master = true → s.shutdown_done = true))
      s.cores i _ (fun j => h.done_inv j) (fun heq => nomatch heq)
  · exact forall_update_core (fun c => c.restored = true →
        c.loc = Loc.failedDone)
      s.cores i _ (fun j => h.restored_loc j)
      (fun hre => by
        have hdone := h.restored_loc i hre
        rw [hc] at hdone
        exact absurd hdone (by decide))

/-- Invariant preservation for the master setting the activation gate after init_late succeeded with error still zero (lines 263-269). -/
theorem inv_set_activate {n : Nat} {s : St n} (h : Inv s) (i : Fin n)
    (hc : (s.cores i).loc = Loc.afterLate) (herr : s.error = 0) :
    Inv ({ s.setLoc i Loc.errCheckFinal with activate := true }) := by
  simp only [St.setLoc, St.setCore]
  refine ⟨?_, ?_, ?_, ?_, ?_, ?_, ?_, ?_, ?_, ?_, ?_, ?_, ?_, ?_, ?_, ?_, ?_, ?_, ?_⟩
  · intro j hj
    dsimp only at hj ⊢
    by_cases hji : j = i
    · subst hji
      rw [Function.update_same] at hj
      simp [Loc.locked] at hj
    · rw [Function.update_noteq hji] at hj
      exact h.lock_own j hj
  · exact entered_congr_bullet h i _ (by rw [hc]; rfl)
  · exact inited_congr_bullet h i _ rfl
  · exact forall_update_core (fun c => c.inited = true → c.loc.past_cpu = true)
      s.cores i _ (fun j => h.inited_loc j) (fun _ => rfl)
  · intro j hj
    dsimp only at hj ⊢
    by_cases hji : j = i
    · subst hji
      rw [Function.update_same] at hj
      exact h.master_id j hj
    · rw [Function.update_noteq hji] at hj
      exact h.master_id j hj
  · intro hne
    exact exists_master_update s.cores i _ rfl (h.master_ex hne)
  · exact h.invalid_err
  · exact forall_update_core (fun c => c.loc.past_elect = true →
        s.master_cpu_id ≠ INVALID_CPU_ID)
      s.cores i _ (fun j => h.past_elect_master j)
      (fun _ => h.past_elect_master i (by rw [hc]; rfl))
  · exact forall_update_core (fun c => c.loc = Loc.earlyStep →
        c.master = true ∧ s.error = 0)
      s.cores i _ (fun j => h.early_inv j) (fun heq => nomatch heq)
  · exact forall_update_core (fun c => c.loc = Loc.cpuStep →
        s.error = 0 ∧ c.inited = false)
      s.cores i _ (fun j => h.cpu_inv j) (fun heq => nomatch heq)
  · exact forall_update_core (fun c => c.loc = Loc.afterInit →
        s.error ≠ 0 ∨ n ≤ s.initialized_cpus)
      s.cores i _ (fun j => h.after_init_inv j) (fun heq => nomatch heq)
  · intro j hj
    dsimp only at hj ⊢
    by_cases hji : j = i
    · subst hji
      rw [Function.update_same] at hj
      rcases hj with hj | hj <;> simp at hj
    · rw [Function.update_noteq hji] at hj
      have hlm := h.late_master j hj
      rw [Function.update_noteq hji]
      exact ⟨hlm.1, all_inited_update s.cores i _ rfl hlm.2⟩
  · exact forall_update_core (fun c => c.loc = Loc.lateStep → s.error = 0)
      s.cores i _ (fun j => h.late_err j) (fun heq => nomatch heq)
  · intro j _
    exact Or.inr rfl
  · intro _
    have hlm := h.late_master i (Or.inr hc)
    refine ⟨herr, all_inited_update s.cores i _ rfl hlm.2, ⟨i, ?_, ?_⟩⟩
    · dsimp only
      rw [Function.update_same]
      exact hlm.1
    · dsimp only
      rw [Function.update_same]
      exact Or.inl rfl
  · intro j _
    rfl
  · exact forall_update_core (fun c => c.loc = Loc.restore →
        s.error ≠ 0 ∧ (c.master = true → s.shutdown_done = true) ∧
        c.restored = false)
      s.cores i _ (fun j => h.restore_inv j) (fun heq => nomatch heq)
  · exact forall_update_core (fun c => c.loc = Loc.failedDone →
        s.error ≠ 0 ∧ c.ret = some s.error ∧ c.restored = true ∧
        (c.master = true → s.shutdown_done = true))
      s.cores i _ (fun j => h.done_inv j) (fun heq => nomatch heq)
  · exact forall_update_core (fun c => c.restored = true →
        c.loc = Loc.failedDone)
      s.cores i _ (fun j => h.restored_loc j)
      (fun hre => by
        have hdone := h.restored_loc i hre
        rw [hc] at hdone
        exact absurd hdone (by decide))

/-- Invariant preservation for the master skipping the gate store because init_late failed (line 263, else path). -/
theorem inv_skip_activate {n : Nat} {s : St n} (h : Inv s) (i : Fin n)
    (hc : (s.cores i).loc = Loc.afterLate) (herr : s.error ≠ 0) :
    Inv (s.setLoc i Loc.errCheckFinal) := by
  simp only [St.setLoc, St.setCore]
  refine ⟨?_, ?_, ?_, ?_, ?_, ?_, ?_, ?_, ?_, ?_, ?_, ?_, ?_, ?_, ?_, ?_, ?_, ?_, ?_⟩
  · intro j hj
    dsimp only at hj ⊢
    by_cases hji : j = i
    · subst hji
      rw [Function.update_same] at hj
      simp [Loc.locked] at hj
    · rw [Function.update_noteq hji] at hj
      exact h.lock_own j hj
  · exact entered_congr_bullet h i _ (by rw [hc]; rfl)
  · exact inited_congr_bullet h i _ rfl
  · exact forall_update_core (fun c => c.inited = true → c.loc.past_cpu = true)
      s.cores i _ (fun j => h.inited_loc j) (fun _ => rfl)
  · intro j hj
    dsimp only at hj ⊢
    by_cases hji : j = i
    · subst hji
      rw [Function.update_same] at hj
      exact h.master_id j hj
    · rw [Function.update_noteq hji] at hj
      exact h.master_id j hj
  · intro hne
    exact exists_master_update s.cores i _ rfl (h.master_ex hne)
  · exact h.invalid_err
  · exact forall_update_core (fun c => c.loc.past_elect = true →
        s.master_cpu_id ≠ INVALID_CPU_ID)
      s.cores i _ (fun j => h.past_elect_master j)
      (fun _ => h.past_elect_master i (by rw [hc]; rfl))
  · exact forall_update_core (fun c => c.loc = Loc.earlyStep →
        c.master = true ∧ s.error = 0)
      s.cores i _ (fun j => h.early_inv j) (fun heq => nomatch heq)
  · exact forall_update_core (fun c => c.loc = Loc.cpuStep →
        s.error = 0 ∧ c.inited = false)
      s.cores i _ (fun j => h.cpu_inv j) (fun heq => nomatch heq)
  · exact forall_update_core (fun c => c.loc = Loc.afterInit →
        s.error ≠ 0 ∨ n ≤ s.initialized_cpus)
      s.cores i _ (fun j => h.after_init_inv j) (fun heq => nomatch heq)
  · intro j hj
    dsimp only at hj ⊢
    by_cases hji : j = i
    · subst hji
      rw [Function.update_same] at hj
      rcases hj with hj | hj <;> simp at hj
    · rw [Function.update_noteq hji] at hj
      have hlm := h.late_master j hj
      rw [Function.update_noteq hji]
      exact ⟨hlm.1, all_inited_update s.cores i _ rfl hlm.2⟩
  · exact forall_update_core (fun c => c.loc = Loc.lateStep → s.error = 0)
      s.cores i _ (fun j => h.late_err j) (fun heq => nomatch heq)
  · exact forall_update_core (fun c => c.loc = Loc.errCheckFinal →
        s.error ≠ 0 ∨ s.activate = true)
      s.cores i _ (fun j => h.err_check_inv j) (fun _ => Or.inl herr)
  · intro hact
    obtain ⟨he2, hall, hex⟩ := h.activ_inv hact
    exact ⟨he2, all_inited_update s.cores i _ rfl hall,
      activ_exists_update s.cores i _ (by rw [hc]; decide)
        (by rw [hc]; decide) hex⟩
  · exact forall_update_core (fun c => c.loc = Loc.activated →
        s.activate = true)
      s.cores i _ (fun j => h.activated_inv j) (fun heq => nomatch heq)
  · exact forall_update_core (fun c => c.loc = Loc.restore →
        s.error ≠ 0 ∧ (c.master = true → s.shutdown_done = true) ∧
        c.restored = false)
      s.cores i _ (fun j => h.restore_inv j) (fun heq => nomatch heq)
  · exact forall_update_core (fun c => c.loc = Loc.failedDone →
        s.error ≠ 0 ∧ c.ret = some s.error ∧ c.restored = true ∧
        (c.master = true → s.shutdown_done = true))
      s.cores i _ (fun j => h.done_inv j) (fun heq => nomatch heq)
  · exact forall_update_core (fun c => c.restored = true →
        c.loc = Loc.failedDone)
      s.cores i _ (fun j => h.restored_loc j)
      (fun hre => by
        have hdone := h.restored_loc i hre
        rw [hc] at hdone
        exact absurd hdone (by decide))

/-- Invariant preservation for a secondary leaving the activation busy-wait (line 272): it saw a non-zero error or the gate. -/
theorem inv_pass_activate_wait {n : Nat} {s : St n} (h : Inv s) (i : Fin n)
    (hc : (s.cores i).loc = Loc.waitActivate) (hw : s.error ≠ 0 ∨ s.activate = true) :
    Inv (s.setLoc i Loc.errCheckFinal) := by
  simp only [St.setLoc, St.setCore]
  refine ⟨?_, ?_, ?_, ?_, ?_, ?_, ?_, ?_, ?_, ?_, ?_, ?_, ?_, ?_, ?_, ?_, ?_, ?_, ?_⟩
  · intro j hj
    dsimp only at hj ⊢
    by_cases hji : j = i
    · subst hji
      rw [Function.update_same] at hj
      simp [Loc.locked] at hj
    · rw [Function.update_noteq hji] at hj
      exact h.lock_own j hj
  · exact entered_congr_bullet h i _ (by rw [hc]; rfl)
  · exact inited_congr_bullet h i _ rfl
  · exact forall_update_core (fun c => c.inited = true → c.loc.past_cpu = true)
      s.cores i _ (fun j => h.inited_loc j) (fun _ => rfl)
  · intro j hj
    dsimp only at hj ⊢
    by_cases hji : j = i
    · subst hji
      rw [Function.update_same] at hj
      exact h.master_id j hj
    · rw [Function.update_noteq hji] at hj
      exact h.master_id j hj
  · intro hne
    exact exists_master_update s.cores i _ rfl (h.master_ex hne)
  · exact h.invalid_err
  · exact forall_update_core (fun c => c.loc.past_elect = true →
        s.master_cpu_id ≠ INVALID_CPU_ID)
      s.cores i _ (fun j => h.past_elect_master j)
      (fun _ => h.past_elect_master i (by rw [hc]; rfl))
  · exact forall_update_core (fun c => c.loc = Loc.earlyStep →
        c.master = true ∧ s.error = 0)
      s.cores i _ (fun j => h.early_inv j) (fun heq => nomatch heq)
  · exact forall_update_core (fun c => c.loc = Loc.cpuStep →
        s.error = 0 ∧ c.inited = false)
      s.cores i _ (fun j => h.cpu_inv j) (fun heq => nomatch heq)
  · exact forall_update_core (fun c => c.loc = Loc.afterInit →
        s.error ≠ 0 ∨ n ≤ s.initialized_cpus)
      s.cores i _ (fun j => h.after_init_inv j) (fun heq => nomatch heq)
  · intro j hj
    dsimp only at hj ⊢
    by_cases hji : j = i
    · subst hji
      rw [Function.update_same] at hj
      rcases hj with hj | hj <;> simp at hj
    · rw [Function.update_noteq hji] at hj
      have hlm := h.late_master j hj
      rw [Function.update_noteq hji]
      exact ⟨hlm.1, all_inited_update s.cores i _ rfl hlm.2⟩
  · exact forall_update_core (fun c => c.loc = Loc.lateStep → s.error = 0)
      s.cores i _ (fun j => h.late_err j) (fun heq => nomatch heq)
  · exact forall_update_core (fun c => c.loc = Loc.errCheckFinal →
        s.error ≠ 0 ∨ s.activate = true)
      s.cores i _ (fun j => h.err_check_inv j) (fun _ => hw)
  · intro hact
    obtain ⟨he2, hall, hex⟩ := h.activ_inv hact
    exact ⟨he2, all_inited_update s.cores i _ rfl hall,
      activ_exists_update s.cores i _ (by rw [hc]; decide)
        (by rw [hc]; decide) hex⟩
  · exact forall_update_core (fun c => c.loc = Loc.activated →
        s.activate = true)
      s.cores i _ (fun j => h.activated_inv j) (fun heq => nomatch heq)
  · exact forall_update_core (fun c => c.loc = Loc.restore →
        s.error ≠ 0 ∧ (c.master = true → s.shutdown_done = true) ∧
        c.restored = false)
      s.cores i _ (fun j => h.restore_inv j) (fun heq => nomatch heq)
  · exact forall_update_core (fun c => c.loc = Loc.failedDone →
        s.error ≠ 0 ∧ c.ret = some s.error ∧ c.restored = true ∧
        (c.master = true → s.shutdown_done = true))
      s.cores i _ (fun j => h.done_inv j) (fun heq => nomatch heq)
  · exact forall_update_core (fun c => c.restored = true →
        c.loc = Loc.failedDone)
      s.cores i _ (fun j => h.restored_loc j)
      (fun hre => by
        have hdone := h.restored_loc i hre
        rw [hc] at hdone
        exact absurd hdone (by decide))

/-- Invariant preservation for the master taking the failure exit: shutdown() runs before its arch_cpu_restore (lines 276-278). -/
theorem inv_fail_master_shutdown {n : Nat} {s : St n} (h : Inv s) (i : Fin n)
    (hc : (s.cores i).loc = Loc.errCheckFinal) (herr : s.error ≠ 0) (hm : (s.cores i).master = true) :
    Inv ({ s.setLoc i Loc.restore with shutdown_done := true }) := by
  simp only [St.setLoc, St.setCore]
  refine ⟨?_, ?_, ?_, ?_, ?_, ?_, ?_, ?_, ?_, ?_, ?_, ?_, ?_, ?_, ?_, ?_, ?_, ?_, ?_⟩
  · intro j hj
    dsimp only at hj ⊢
    by_cases hji : j = i
    · subst hji
      rw [Function.update_same] at hj
      simp [Loc.locked] at hj
    · rw [Function.update_noteq hji] at hj
      exact h.lock_own j hj
  · exact entered_congr_bullet h i _ (by rw [hc]; rfl)
  · exact inited_congr_bullet h i _ rfl
  · exact forall_update_core (fun c => c.inited = true → c.loc.past_cpu = true)
      s.cores i _ (fun j => h.inited_loc j) (fun _ => rfl)
  · intro j hj
    dsimp only at hj ⊢
    by_cases hji : j = i
    · subst hji
      rw [Function.update_same] at hj
      exact h.master_id j hj
    · rw [Function.update_noteq hji] at hj
      exact h.master_id j hj
  · intro hne
    exact exists_master_update s.cores i _ rfl (h.master_ex hne)
  · exact h.invalid_err
  · exact forall_update_core (fun c => c.loc.past_elect = true →
        s.master_cpu_id ≠ INVALID_CPU_ID)
      s.cores i _ (fun j => h.past_elect_master j)
      (fun _ => h.past_elect_master i (by rw [hc]; rfl))
  · exact forall_update_core (fun c => c.loc = Loc.earlyStep →
        c.master = true ∧ s.error = 0)
      s.cores i _ (fun j => h.early_inv j) (fun heq => nomatch heq)
  · exact forall_update_core (fun c => c.loc = Loc.cpuStep →
        s.error = 0 ∧ c.inited = false)
      s.cores i _ (fun j => h.cpu_inv j) (fun heq => nomatch heq)
  · exact forall_update_core (fun c => c.loc = Loc.afterInit →
        s.error ≠ 0 ∨ n ≤ s.initialized_cpus)
      s.cores i _ (fun j => h.after_init_inv j) (fun heq => nomatch heq)
  · intro j hj
    dsimp only at hj ⊢
    by_cases hji : j = i
    · subst hji
      rw [Function.update_same] at hj
      rcases hj with hj | hj <;> simp at hj
    · rw [Function.update_noteq hji] at hj
      have hlm := h.late_master j hj
      rw [Function.update_noteq hji]
      exact ⟨hlm.1, all_inited_update s.cores i _ rfl hlm.2⟩
  · exact forall_update_core (fun c => c.loc = Loc.lateStep → s.error = 0)
      s.cores i _ (fun j => h.late_err j) (fun heq => nomatch heq)
  · exact forall_update_core (fun c => c.loc = Loc.errCheckFinal →
        s.error ≠ 0 ∨ s.activate = true)
      s.cores i _ (fun j => h.err_check_inv j) (fun heq => nomatch heq)
  · intro hact
    exact absurd (h.activ_inv hact).1 herr
  · exact forall_update_core (fun c => c.loc = Loc.activated →
        s.activate = true)
      s.cores i _ (fun j => h.activated_inv j) (fun heq => nomatch heq)
  · intro j hj
    dsimp only at hj ⊢
    by_cases hji : j = i
    · subst hji
      rw [Function.update_same]
      exact ⟨herr, fun _ => rfl, not_restored_of_loc h (by rw [hc]; decide)⟩
    · rw [Function.update_noteq hji] at hj
      rw [Function.update_noteq hji]
      have hr := h.restore_inv j hj
      exact ⟨hr.1, fun _ => rfl, hr.2.2⟩
  · intro j hj
    dsimp only at hj ⊢
    by_cases hji : j = i
    · subst hji
      rw [Function.update_same] at hj
      simp at hj
    · rw [Function.update_noteq hji] at hj
      rw [Function.update_noteq hji]
      have hd := h.done_inv j hj
      exact ⟨hd.1, hd.2.1, hd.2.2.1, fun _ => rfl⟩
  · exact forall_update_core (fun c => c.restored = true →
        c.loc = Loc.failedDone)
      s.cores i _ (fun j => h.restored_loc j)
      (fun hre => by
        have hdone := h.restored_loc i hre
        rw [hc] at hdone
        exact absurd hdone (by decide))

/-- Invariant preservation for a secondary taking the failure exit toward arch_cpu_restore (lines 276-279). -/
theorem inv_fail_secondary {n : Nat} {s : St n} (h : Inv s) (i : Fin n)
    (hc : (s.cores i).loc = Loc.errCheckFinal) (herr : s.error ≠ 0) (hm : (s.cores i).master = false) :
    Inv (s.setLoc i Loc.restore) := by
  simp only [St.setLoc, St.setCore]
  refine ⟨?_, ?_, ?_, ?_, ?_, ?_, ?_, ?_, ?_, ?_, ?_, ?_, ?_, ?_, ?_, ?_, ?_, ?_, ?_⟩
  · intro j hj
    dsimp only at hj ⊢
    by_cases hji : j = i
    · subst hji
      rw [Function.update_same] at hj
      simp [Loc.locked] at hj
    · rw [Function.update_noteq hji] at hj
      exact h.lock_own j hj
  · exact entered_congr_bullet h i _ (by rw [hc]; rfl)
  · exact inited_congr_bullet h i _ rfl
  · exact forall_update_core (fun c => c.inited = true → c.loc.past_cpu = true)
      s.cores i _ (fun j => h.inited_loc j) (fun _ => rfl)
  · intro j hj
    dsimp only at hj ⊢
    by_cases hji : j = i
    · subst hji
      rw [Function.update_same] at hj
      exact h.master_id j hj
    · rw [Function.update_noteq hji] at hj
      exact h.master_id j hj
  · intro hne
    exact exists_master_update s.cores i _ rfl (h.master_ex hne)
  · exact h.invalid_err
  · exact forall_update_core (fun c => c.loc.past_elect = true →
        s.master_cpu_id ≠ INVALID_CPU_ID)
      s.cores i _ (fun j => h.past_elect_master j)
      (fun _ => h.past_elect_master i (by rw [hc]; rfl))
  · exact forall_update_core (fun c => c.loc = Loc.earlyStep →
        c.master = true ∧ s.error = 0)
      s.cores i _ (fun j => h.early_inv j) (fun heq => nomatch heq)
  · exact forall_update_core (fun c => c.loc = Loc.cpuStep →
        s.error = 0 ∧ c.inited = false)
      s.cores i _ (fun j => h.cpu_inv j) (fun heq => nomatch heq)
  · exact forall_update_core (fun c => c.loc = Loc.afterInit →
        s.error ≠ 0 ∨ n ≤ s.initialized_cpus)
      s.cores i _ (fun j => h.after_init_inv j) (fun heq => nomatch heq)
  · intro j hj
    dsimp only at hj ⊢
    by_cases hji : j = i
    · subst hji
      rw [Function.update_same] at hj
      rcases hj with hj | hj <;> simp at hj
    · rw [Function.update_noteq hji] at hj
      have hlm := h.late_master j hj
      rw [Function.update_noteq hji]
      exact ⟨hlm.1, all_inited_update s.cores i _ rfl hlm.2⟩
  · exact forall_update_core (fun c => c.loc = Loc.lateStep → s.error = 0)
      s.cores i _ (fun j => h.late_err j) (fun heq => nomatch heq)
  · exact forall_update_core (fun c => c.loc = Loc.errCheckFinal →
        s.error ≠ 0 ∨ s.activate = true)
      s.cores i _ (fun j => h.err_check_inv j) (fun heq => nomatch heq)
  · intro hact
    exact absurd (h.activ_inv hact).1 herr
  · exact forall_update_core (fun c => c.loc = Loc.activated →
        s.activate = true)
      s.cores i _ (fun j => h.activated_inv j) (fun heq => nomatch heq)
  · intro j hj
    dsimp only at hj ⊢
    by_cases hji : j = i
    · subst hji
      rw [Function.update_same]
      refine ⟨herr, ?_, not_restored_of_loc h (by rw [hc]; decide)⟩
      intro hmj
      have hmj2 : (s.cores j).master = true := hmj
      rw [hm] at hmj2
      cases hmj2
    · rw [Function.update_noteq hji] at hj
      rw [Function.update_noteq hji]
      exact h.restore_inv j hj
  · exact forall_update_core (fun c => c.loc = Loc.failedDone →
        s.error ≠ 0 ∧ c.ret = some s.error ∧ c.restored = true ∧
        (c.master = true → s.shutdown_done = true))
      s.cores i _ (fun j => h.done_inv j) (fun heq => nomatch heq)
  · exact forall_update_core (fun c => c.restored = true →
        c.loc = Loc.failedDone)
      s.cores i _ (fun j => h.restored_loc j)
      (fun hre => by
        have hdone := h.restored_loc i hre
        rw [hc] at hdone
        exact absurd hdone (by decide))

/-- Invariant preservation for arch_cpu_restore and the return of the error code (lines 279-280). -/
theorem inv_do_restore {n : Nat} {s : St n} (h : Inv s) (i : Fin n)
    (hc : (s.cores i).loc = Loc.restore) :
    Inv (s.setCore i { s.cores i with
      loc := Loc.failedDone, restored := true, ret := some s.error }) := by
  simp only [St.setCore]
  refine ⟨?_, ?_, ?_, ?_, ?_, ?_, ?_, ?_, ?_, ?_, ?_, ?_, ?_, ?_, ?_, ?_, ?_, ?_, ?_⟩
  · intro j hj
    dsimp only at hj ⊢
    by_cases hji : j = i
    · subst hji
      rw [Function.update_same] at hj
      simp [Loc.locked] at hj
    · rw [Function.update_noteq hji] at hj
      exact h.lock_own j hj
  · exact entered_congr_bullet h i _ (by rw [hc]; rfl)
  · exact inited_congr_bullet h i _ rfl
  · exact forall_update_core (fun c => c.inited = true → c.loc.past_cpu = true)
      s.cores i _ (fun j => h.inited_loc j) (fun _ => rfl)
  · intro j hj
    dsimp only at hj ⊢
    by_cases hji : j = i
    · subst hji
      rw [Function.update_same] at hj
      exact h.master_id j hj
    · rw [Function.update_noteq hji] at hj
      exact h.master_id j hj
  · intro hne
    exact exists_master_update s.cores i _ rfl (h.master_ex hne)
  · exact h.invalid_err
  · exact forall_update_core (fun c => c.loc.past_elect = true →
        s.master_cpu_id ≠ INVALID_CPU_ID)
      s.cores i _ (fun j => h.past_elect_master j)
      (fun _ => h.past_elect_master i (by rw [hc]; rfl))
  · exact forall_update_core (fun c => c.loc = Loc.earlyStep →
        c.master = true ∧ s.error = 0)
      s.cores i _ (fun j => h.early_inv j) (fun heq => nomatch heq)
  · exact forall_update_core (fun c => c.loc = Loc.cpuStep →
        s.error = 0 ∧ c.inited = false)
      s.cores i _ (fun j => h.cpu_inv j) (fun heq => nomatch heq)
  · exact forall_update_core (fun c => c.loc = Loc.afterInit →
        s.error ≠ 0 ∨ n ≤ s.initialized_cpus)
      s.cores i _ (fun j => h.after_init_inv j) (fun heq => nomatch heq)
  · intro j hj
    dsimp only at hj ⊢
    by_cases hji : j = i
    · subst hji
      rw [Function.update_same] at hj
      rcases hj with hj | hj <;> simp at hj
    · rw [Function.update_noteq hji] at hj
      have hlm := h.late_master j hj
      rw [Function.update_noteq hji]
      exact ⟨hlm.1, all_inited_update s.cores i _ rfl hlm.2⟩
  · exact forall_update_core (fun c => c.loc = Loc.lateStep → s.error = 0)
      s.cores i _ (fun j => h.late_err j) (fun heq => nomatch heq)
  · exact forall_update_core (fun c => c.loc = Loc.errCheckFinal →
        s.error ≠ 0 ∨ s.activate = true)
      s.cores i _ (fun j => h.err_check_inv j) (fun heq => nomatch heq)
  · intro hact
    exact absurd (h.activ_inv hact).1 (h.restore_inv i hc).1
  · exact forall_update_core (fun c => c.loc = Loc.activated →
        s.activate = true)
      s.cores i _ (fun j => h.activated_inv j) (fun heq => nomatch heq)
  · exact forall_update_core (fun c => c.loc = Loc.restore →
        s.error ≠ 0 ∧ (c.master = true → s.shutdown_done = true) ∧
        c.restored = false)
      s.cores i _ (fun j => h.restore_inv j) (fun heq => nomatch heq)
  · intro j hj
    dsimp only at hj ⊢
    by_cases hji : j = i
    · subst hji
      rw [Function.update_same]
      have hr := h.restore_inv j hc
      exact ⟨hr.1, rfl, rfl, hr.2.1⟩
    · rw [Function.update_noteq hji] at hj
      rw [Function.update_noteq hji]
      exact h.done_inv j hj
  · exact forall_update_core (fun c => c.restored = true →
        c.loc = Loc.failedDone)
      s.cores i _ (fun j => h.restored_loc j) (fun _ => rfl)

/-- Invariant preservation for the irreversible mode switch arch_cpu_activate_vmm (line 287), taken only with error zero. -/
theorem inv_activate_vmm {n : Nat} {s : St n} (h : Inv s) (i : Fin n)
    (hc : (s.cores i).loc = Loc.errCheckFinal) (herr : s.error = 0) :
    Inv (s.setLoc i Loc.activated) := by
  simp only [St.setLoc, St.setCore]
  refine ⟨?_, ?_, ?_, ?_, ?_, ?_, ?_, ?_, ?_, ?_, ?_, ?_, ?_, ?_, ?_, ?_, ?_, ?_, ?_⟩
  · intro j hj
    dsimp only at hj ⊢
    by_cases hji : j = i
    · subst hji
      rw [Function.update_same] at hj
      simp [Loc.locked] at hj
    · rw [Function.update_noteq hji] at hj
      exact h.lock_own j hj
  · exact entered_congr_bullet h i _ (by rw [hc]; rfl)
  · exact inited_congr_bullet h i _ rfl
  · exact forall_update_core (fun c => c.inited = true → c.loc.past_cpu = true)
      s.cores i _ (fun j => h.inited_loc j) (fun _ => rfl)
  · intro j hj
    dsimp only at hj ⊢
    by_cases hji : j = i
    · subst hji
      rw [Function.update_same] at hj
      exact h.master_id j hj
    · rw [Function.update_noteq hji] at hj
      exact h.master_id j hj
  · intro hne
    exact exists_master_update s.cores i _ rfl (h.master_ex hne)
  · exact h.invalid_err
  · exact forall_update_core (fun c => c.loc.past_elect = true →
        s.master_cpu_id ≠ INVALID_CPU_ID)
      s.cores i _ (fun j => h.past_elect_master j)
      (fun _ => h.past_elect_master i (by rw [hc]; rfl))
  · exact forall_update_core (fun c => c.loc = Loc.earlyStep →
        c.master = true ∧ s.error = 0)
      s.cores i _ (fun j => h.early_inv j) (fun heq => nomatch heq)
  · exact forall_update_core (fun c => c.loc = Loc.cpuStep →
        s.error = 0 ∧ c.inited = false)
      s.cores i _ (fun j => h.cpu_inv j) (fun heq => nomatch heq)
  · exact forall_update_core (fun c => c.loc = Loc.afterInit →
        s.error ≠ 0 ∨ n ≤ s.initialized_cpus)
      s.cores i _ (fun j => h.after_init_inv j) (fun heq => nomatch heq)
  · intro j hj
    dsimp only at hj ⊢
    by_cases hji : j = i
    · subst hji
      rw [Function.update_same] at hj
      rcases hj with hj | hj <;> simp at hj
    · rw [Function.update_noteq hji] at hj
      have hlm := h.late_master j hj
      rw [Function.update_noteq hji]
      exact ⟨hlm.1, all_inited_update s.cores i _ rfl hlm.2⟩
  · exact forall_update_core (fun c => c.loc = Loc.lateStep → s.error = 0)
      s.cores i _ (fun j => h.late_err j) (fun heq => nomatch heq)
  · exact forall_update_core (fun c => c.loc = Loc.errCheckFinal →
        s.error ≠ 0 ∨ s.activate = true)
      s.cores i _ (fun j => h.err_check_inv j) (fun heq => nomatch heq)
  · intro hact
    obtain ⟨he2, hall, m, hm2, hloc⟩ := h.activ_inv hact
    refine ⟨he2, all_inited_update s.cores i _ rfl hall, ?_⟩
    by_cases hmi : m = i
    · subst hmi
      refine ⟨m, ?_, ?_⟩
      · dsimp only
        rw [Function.update_same]
        exact hm2
      · dsimp only
        rw [Function.update_same]
        exact Or.inr rfl
    · refine ⟨m, ?_, ?_⟩
      · dsimp only
        rw [Function.update_noteq hmi]
        exact hm2
      · dsimp only
        rw [Function.update_noteq hmi]
        exact hloc
  · exact forall_update_core (fun c => c.loc = Loc.activated →
        s.activate = true)
      s.cores i _ (fun j => h.activated_inv j)
      (fun _ => by
        rcases h.err_check_inv i hc with he2 | ha
        · exact absurd herr he2
        · exact ha)
  · exact forall_update_core (fun c => c.loc = Loc.restore →
        s.error ≠ 0 ∧ (c.master = true → s.shutdown_done = true) ∧
        c.restored = false)
      s.cores i _ (fun j => h.restore_inv j) (fun heq => nomatch heq)
  · exact forall_update_core (fun c => c.loc = Loc.failedDone →
        s.error ≠ 0 ∧ c.ret = some s.error ∧ c.restored = true ∧
        (c.master = true → s.shutdown_done = true))
      s.cores i _ (fun j => h.done_inv j) (fun heq => nomatch heq)
  · exact forall_update_core (fun c => c.restored = true →
        c.loc = Loc.failedDone)
      s.cores i _ (fun j => h.restored_loc j)
      (fun hre => by
        have hdone := h.restored_loc i hre
        rw [hc] at hdone
        exact absurd hdone (by decide))

/-- One protocol step preserves the invariant.  The hypothesis
n ≤ INVALID_CPU_ID reflects that cpu ids (unsigned ints below the online
count) are distinct from the sentinel (unsigned int)-1. -/
theorem inv_step {n : Nat} {s s' : St n} (hn : n ≤ INVALID_CPU_ID)
    (h : Inv s) (hs : Step s s') : Inv s' := by
  cases hs with
  | take_entry_lock i hl hc => exact inv_take_entry_lock h i hl hc
  | inc_entered i hl hc => exact inv_inc_entered h i hl hc
  | pass_entered_wait i hl hc hw => exact inv_pass_entered_wait h i hl hc hw
  | elect_master i hl hc hm => exact inv_elect_master hn h i hl hc hm
  | elect_secondary i hl hc hm => exact inv_elect_secondary h i hl hc hm
  | early_call_ok i hl hc => exact inv_early_call_ok h i hl hc
  | early_call_fail i e he hl hc => exact inv_early_call_fail h i e he hl hc
  | early_finish i hl hc => exact inv_early_finish h i hl hc
  | cpu_init_begin i hl hc herr => exact inv_cpu_init_begin h i hl hc herr
  | cpu_init_skip i hl hc herr => exact inv_cpu_init_skip h i hl hc herr
  | cpu_init_fail i e he hl hc => exact inv_cpu_init_fail h i e he hl hc
  | cpu_init_ok i hl hc => exact inv_cpu_init_ok h i hl hc
  | release_entry_lock i hl hc => exact inv_release_entry_lock h i hl hc
  | pass_init_wait i hc hw => exact inv_pass_init_wait h i hc hw
  | begin_late i hc herr hm => exact inv_begin_late h i hc herr hm
  | skip_late i hc hnm => exact inv_skip_late h i hc hnm
  | late_call_ok i hc => exact inv_late_call_ok h i hc
  | late_call_fail i e he hc => exact inv_late_call_fail h i e he hc
  | late_finish i hc => exact inv_late_finish h i hc
  | set_activate i hc herr => exact inv_set_activate h i hc herr
  | skip_activate i hc herr => exact inv_skip_activate h i hc herr
  | pass_activate_wait i hc hw => exact inv_pass_activate_wait h i hc hw
  | fail_master_shutdown i hc herr hm => exact inv_fail_master_shutdown h i hc herr hm
  | fail_secondary i hc herr hm => exact inv_fail_secondary h i hc herr hm
  | do_restore i hc => exact inv_do_restore h i hc
  | activate_vmm i hc herr => exact inv_activate_vmm h i hc herr

/-- The invariant holds in every reachable state. -/
theorem inv_reachable {n : Nat} {s : St n} (hn : n ≤ INVALID_CPU_ID)
    (hr : Reachable n s) : Inv s := by
  induction hr with
  | refl => exact inv_first n
  | tail hab hstep ih => exact inv_step hn ih hstep

/-- Reachability composes with further protocol steps. -/
theorem reachable_trans {n : Nat} {s s' : St n} (h1 : Reachable n s)
    (h2 : ReachFrom s s') : Reachable n s' :=
  Relation.ReflTransGen.trans h1 h2

/-- Both shared counters are monotone across one protocol step. -/
theorem step_counters_mono {n : Nat} {s s' : St n} (hs : Step s s') :
    s.entered_cpus ≤ s'.entered_cpus ∧
    s.initialized_cpus ≤ s'.initialized_cpus := by
  cases hs <;>
    exact ⟨by first | exact Nat.le_refl _ | exact Nat.le_succ _,
      by first | exact Nat.le_refl _ | exact Nat.le_succ _⟩

/-- Both shared counters are monotone across any number of steps. -/
theorem reach_from_counters_mono {n : Nat} {s s' : St n}
    (hp : ReachFrom s s') :
    s.entered_cpus ≤ s'.entered_cpus ∧
    s.initialized_cpus ≤ s'.initialized_cpus := by
  induction hp with
  | refl => exact ⟨Nat.le_refl _, Nat.le_refl _⟩
  | tail hab hstep ih =>
    have hm := step_counters_mono hstep
    exact ⟨Nat.le_trans ih.1 hm.1, Nat.le_trans ih.2 hm.2⟩

/-- In every invariant state the counters are bounded by the core count. -/
theorem counters_le {n : Nat} {s : St n} (h : Inv s) :
    s.entered_cpus ≤ n ∧ s.initialized_cpus ≤ n := by
  constructor
  · rw [h.entered_eq]
    have hb := Finset.card_le_univ
      (Finset.univ.filter fun i => (s.cores i).loc.past_inc = true)
    simpa using hb
  · rw [h.inited_eq]
    have hb := Finset.card_le_univ
      (Finset.univ.filter fun i => (s.cores i).inited = true)
    simpa using hb

/-- A single step never clears or changes a non-zero error channel: every
store to `error` in setup.c happens with the channel still zero (the stores
of init_early and init_late are guarded by the preceding call sequence
having returned 0, and cpu_init's single store at line 174 runs only when
the line-253 check saw 0 under the lock). -/
theorem step_error_stable {n : Nat} {s s' : St n} (h : Inv s)
    (hs : Step s s') (he : s.error ≠ 0) : s'.error = s.error := by
  cases hs with
  | take_entry_lock i hl hc => rfl
  | inc_entered i hl hc => rfl
  | pass_entered_wait i hl hc hw => rfl
  | elect_master i hl hc hm => rfl
  | elect_secondary i hl hc hm => rfl
  | early_call_ok i hl hc => exact absurd (h.early_inv i hc).2 he
  | early_call_fail i e he2 hl hc => exact absurd (h.early_inv i hc).2 he
  | early_finish i hl hc => rfl
  | cpu_init_begin i hl hc herr => rfl
  | cpu_init_skip i hl hc herr => rfl
  | cpu_init_fail i e he2 hl hc => exact absurd (h.cpu_inv i hc).1 he
  | cpu_init_ok i hl hc => rfl
  | release_entry_lock i hl hc => rfl
  | pass_init_wait i hc hw => rfl
  | begin_late i hc herr hm => rfl
  | skip_late i hc hnm => rfl
  | late_call_ok i hc => exact absurd (h.late_err i hc) he
  | late_call_fail i e he2 hc => exact absurd (h.late_err i hc) he
  | late_finish i hc => rfl
  | set_activate i hc herr => rfl
  | skip_activate i hc herr => rfl
  | pass_activate_wait i hc hw => rfl
  | fail_master_shutdown i hc herr hm => rfl
  | fail_secondary i hc herr hm => rfl
  | do_restore i hc => rfl
  | activate_vmm i hc herr => rfl

/-- A non-zero error channel keeps its value over any later steps of the
same boot attempt. -/
theorem reach_from_error_stable {n : Nat} {s s' : St n}
    (hn : n ≤ INVALID_CPU_ID) (hr : Reachable n s) (hp : ReachFrom s s')
    (he : s.error ≠ 0) : s'.error = s.error := by
  induction hp with
  | refl => rfl
  | tail hab hstep ih =>
    have hinv := inv_reachable hn (reachable_trans hr hab)
    exact (step_error_stable hinv hstep
      (fun hx => he (ih.symm.trans hx))).trans ih

/-- Concrete execution, one core (n = 1): the successful boot.  Each state
is the exact successor produced by the corresponding Step constructor. -/
def a0 : St 1 := St.first 1

def a1 : St 1 := { a0.setLoc 0 Loc.inc with init_lock := some 0 }

def a2 : St 1 := { a1.setLoc 0 Loc.waitEntered with
  entered_cpus := a1.entered_cpus + 1, init_lock := none }

def a3 : St 1 := { a2.setLoc 0 Loc.elect with init_lock := some 0 }

def a4 : St 1 :=
  { a3.setCore 0 { a3.cores 0 with loc := Loc.earlyStep, master := true } with
    master_cpu_id := (0 : Fin 1).val }

def a5 : St 1 := a4.setLoc 0 Loc.checkErr

def a6 : St 1 := a5.setLoc 0 Loc.cpuStep

def a7 : St 1 :=
  { a6.setCore 0 { a6.cores 0 with loc := Loc.unlock2, inited := true } with
    initialized_cpus := a6.initialized_cpus + 1 }

def a8 : St 1 := { a7.setLoc 0 Loc.waitInit with init_lock := none }

def a9 : St 1 := a8.setLoc 0 Loc.afterInit

def a10 : St 1 := a9.setLoc 0 Loc.lateStep

def a11 : St 1 := a10.setLoc 0 Loc.afterLate

def a12 : St 1 := { a11.setLoc 0 Loc.errCheckFinal with activate := true }

def a13 : St 1 := a12.setLoc 0 Loc.activated

theorem step_a0_a1 : Step a0 a1 := Step.take_entry_lock a0 0 rfl rfl

theorem step_a1_a2 : Step a1 a2 := Step.inc_entered a1 0 (by decide) (by decide)

theorem step_a2_a3 : Step a2 a3 :=
  Step.pass_entered_wait a2 0 (by decide) (by decide) (by decide)

theorem step_a3_a4 : Step a3 a4 :=
  Step.elect_master a3 0 (by decide) (by decide) (by decide)

theorem step_a4_a5 : Step a4 a5 := Step.early_finish a4 0 (by decide) (by decide)

theorem step_a5_a6 : Step a5 a6 :=
  Step.cpu_init_begin a5 0 (by decide) (by decide) (by decide)

theorem step_a6_a7 : Step a6 a7 := Step.cpu_init_ok a6 0 (by decide) (by decide)

theorem step_a7_a8 : Step a7 a8 :=
  Step.release_entry_lock a7 0 (by decide) (by decide)

theorem step_a8_a9 : Step a8 a9 :=
  Step.pass_init_wait a8 0 (by decide) (by decide)

theorem step_a9_a10 : Step a9 a10 :=
  Step.begin_late a9 0 (by decide) (by decide) (by decide)

theorem step_a10_a11 : Step a10 a11 := Step.late_finish a10 0 (by decide)

theorem step_a11_a12 : Step a11 a12 :=
  Step.set_activate a11 0 (by decide) (by decide)

theorem step_a12_a13 : Step a12 a13 :=
  Step.activate_vmm a12 0 (by decide) (by decide)

theorem reach_a1 : Reachable 1 a1 := Relation.ReflTransGen.single step_a0_a1

theorem reach_a2 : Reachable 1 a2 := reach_a1.tail step_a1_a2

theorem reach_a3 : Reachable 1 a3 := reach_a2.tail step_a2_a3

theorem reach_a4 : Reachable 1 a4 := reach_a3.tail step_a3_a4

theorem reach_a13 : Reachable 1 a13 :=
  ((((((((reach_a4.tail step_a4_a5).tail step_a5_a6).tail
    step_a6_a7).tail step_a7_a8).tail step_a8_a9).tail
    step_a9_a10).tail step_a10_a11).tail step_a11_a12).tail step_a12_a13

/-- Concrete execution, one core: the failing boot.  The master's
init_early fails with -EINVAL; the core skips cpu_init, runs shutdown()
and arch_cpu_restore, and returns the error. -/
def b5 : St 1 := { a4.setLoc 0 Loc.checkErr with error := -22 }

def b6 : St 1 := b5.setLoc 0 Loc.unlock2

def b7 : St 1 := { b6.setLoc 0 Loc.waitInit with init_lock := none }

def b8 : St 1 := b7.setLoc 0 Loc.afterInit

def b9 : St 1 := b8.setLoc 0 Loc.waitActivate

def b10 : St 1 := b9.setLoc 0 Loc.errCheckFinal

def b11 : St 1 := { b10.setLoc 0 Loc.restore with shutdown_done := true }

def b12 : St 1 :=
  b11.setCore 0 { b11.cores 0 with
    loc := Loc.failedDone, restored := true, ret := some b11.error }

theorem step_a4_b5 : Step a4 b5 :=
  Step.early_call_fail a4 0 (-22) (by decide) (by decide) (by decide)

theorem step_b5_b6 : Step b5 b6 :=
  Step.cpu_init_skip b5 0 (by decide) (by decide) (by decide)

theorem step_b6_b7 : Step b6 b7 :=
  Step.release_entry_lock b6 0 (by decide) (by decide)

theorem step_b7_b8 : Step b7 b8 :=
  Step.pass_init_wait b7 0 (by decide) (by decide)

theorem step_b8_b9 : Step b8 b9 := Step.skip_late b8 0 (by decide) (by decide)

theorem step_b9_b10 : Step b9 b10 :=
  Step.pass_activate_wait b9 0 (by decide) (by decide)

theorem step_b10_b11 : Step b10 b11 :=
  Step.fail_master_shutdown b10 0 (by decide) (by decide) (by decide)

theorem step_b11_b12 : Step b11 b12 := Step.do_restore b11 0 (by decide)

theorem reach_b5 : Reachable 1 b5 := reach_a4.tail step_a4_b5

theorem reach_b8 : Reachable 1 b8 :=
  ((reach_b5.tail step_b5_b6).tail step_b6_b7).tail step_b7_b8

theorem reach_b12 : Reachable 1 b12 :=
  (((reach_b8.tail step_b8_b9).tail step_b9_b10).tail
    step_b10_b11).tail step_b11_b12

/-- Claim C1.  For every number n ≥ 1 of cores concurrently executing
entry, exactly one becomes the master: in every reachable state at most one
core has its master flag set (the check of master_cpu_id == INVALID_CPU_ID
at line 246 and the assignment at line 41 both happen under init_lock), and
once every core has passed the election point, exactly one master exists —
no interleaving yields zero or multiple masters. -/
theorem entry_unique_master (n : Nat) (s : St n) (hn : n ≤ INVALID_CPU_ID)
    (hr : Reachable n s) :
    (∀ i j : Fin n, (s.cores i).master = true → (s.cores j).master = true →
      i = j) ∧
    (0 < n → (∀ i : Fin n, (s.cores i).loc.past_elect = true) →
      ∃! i : Fin n, (s.cores i).master = true) := by
  have h := inv_reachable hn hr
  constructor
  · intro i j hi hj
    exact master_unique h hi hj
  · intro hpos hall
    have hne := h.past_elect_master ⟨0, hpos⟩ (hall ⟨0, hpos⟩)
    obtain ⟨m, hm⟩ := h.master_ex hne
    exact ⟨m, hm, fun j hj => master_unique h hj hm⟩

/-- Witness for C1: in the final state of the one-core successful run,
every core is past the election and exactly one master exists. -/
theorem entry_unique_master_witness :
    ∃! i : Fin 1, (a13.cores i).master = true :=
  (entry_unique_master 1 a13 (by decide) reach_a13).2 (by decide) (by decide)

/-- Claim C2.  The activation gate is true exactly when init_late has
completed on the master with the error channel still zero — in state terms:
the master is past the post-init_late check (at the final error check of
line 276 or already activated) and error = 0 — and no core executes
arch_cpu_activate_vmm (reaches the activated location) while the gate is
false; the master itself proceeds only after setting it (line 269). -/
theorem activation_gate_iff (n : Nat) (s : St n) (hn : n ≤ INVALID_CPU_ID)
    (hr : Reachable n s) :
    (s.activate = true ↔ (s.error = 0 ∧ ∃ i, (s.cores i).master = true ∧
      ((s.cores i).loc = Loc.errCheckFinal ∨
        (s.cores i).loc = Loc.activated))) ∧
    (∀ i, (s.cores i).loc = Loc.activated → s.activate = true) := by
  have h := inv_reachable hn hr
  refine ⟨⟨?_, ?_⟩, h.activated_inv⟩
  · intro hact
    obtain ⟨he, hall, hex⟩ := h.activ_inv hact
    exact ⟨he, hex⟩
  · rintro ⟨he, i, hm, hloc⟩
    rcases hloc with hl1 | hl1
    · rcases h.err_check_inv i hl1 with he2 | ha
      · exact absurd he he2
      · exact ha
    · exact h.activated_inv i hl1

/-- Witness for C2: in the final state of the successful run the gate is
set and the theorem yields error 0 with the master past init_late. -/
theorem activation_gate_iff_witness :
    a13.activate = true ∧ a13.error = 0 ∧ ∃ i : Fin 1,
      (a13.cores i).master = true ∧ ((a13.cores i).loc = Loc.errCheckFinal ∨
        (a13.cores i).loc = Loc.activated) := by
  have h := (activation_gate_iff 1 a13 (by decide) reach_a13).1.mp (by decide)
  exact ⟨by decide, h.1, h.2⟩

/-- Claim C3.  Once the error channel is non-zero, no core reaches the mode
switch (the activated location); every core that has returned did so with
the error code after running arch_cpu_restore; the master additionally ran
shutdown() before its restore (at the restore location shutdown_done is
already set while arch_cpu_restore has not yet run); and arch_cpu_restore
happens only on this failure path. -/
theorem error_abort_path (n : Nat) (s : St n) (hn : n ≤ INVALID_CPU_ID)
    (hr : Reachable n s) (he : s.error ≠ 0) :
    (∀ i, (s.cores i).loc ≠ Loc.activated) ∧
    (∀ i, (s.cores i).loc = Loc.failedDone →
      (s.cores i).ret = some s.error ∧ (s.cores i).restored = true ∧
      ((s.cores i).master = true → s.shutdown_done = true)) ∧
    (∀ i, (s.cores i).loc = Loc.restore → (s.cores i).restored = false ∧
      ((s.cores i).master = true → s.shutdown_done = true)) ∧
    (∀ i, (s.cores i).restored = true → (s.cores i).loc = Loc.failedDone) := by
  have h := inv_reachable hn hr
  refine ⟨?_, ?_, ?_, h.restored_loc⟩
  · intro i hact
    have h1 := h.activated_inv i hact
    exact absurd (h.activ_inv h1).1 he
  · intro i hd
    have hdi := h.done_inv i hd
    exact ⟨hdi.2.1, hdi.2.2.1, hdi.2.2.2⟩
  · intro i hrst
    have hri := h.restore_inv i hrst
    exact ⟨hri.2.2, hri.2.1⟩

/-- Witness for C3: final state of the one-core failing run; the core
returned -22 after restoring, shutdown() ran, and no core activated. -/
theorem error_abort_path_witness :
    b12.error = -22 ∧ (b12.cores 0).ret = some b12.error ∧
    (b12.cores 0).restored = true ∧ b12.shutdown_done = true ∧
    (b12.cores 0).loc ≠ Loc.activated := by
  have h := error_abort_path 1 b12 (by decide) reach_b12 (by decide)
  have h2 := h.2.1 0 (by decide)
  exact ⟨by decide, h2.1, h2.2.1, h2.2.2 (by decide), h.1 0⟩

/-- Claim C4.  The error channel is write-once for non-zero values within a
boot attempt: from any reachable state with a non-zero error, any number of
further protocol steps leaves the error unchanged — no operation clears it
or overwrites it with a different value (cpu_init is skipped when error is
non-zero, each failing routine returns after its first failing call, and
init_late runs only after a zero check). -/
theorem error_write_once (n : Nat) (s s' : St n) (hn : n ≤ INVALID_CPU_ID)
    (hr : Reachable n s) (hp : ReachFrom s s') (he : s.error ≠ 0) :
    s'.error = s.error :=
  reach_from_error_stable hn hr hp he

/-- Witness for C4: in the failing run, from the state with error -22 a
further step leaves the error unchanged. -/
theorem error_write_once_witness : b8.error ≠ 0 ∧ b9.error = b8.error :=
  ⟨by decide, error_write_once 1 b8 b9 (by decide) reach_b8
    (Relation.ReflTransGen.single step_b8_b9) (by decide)⟩

/-- Claim C5.  entered_cpus counts exactly the cores past the line-237
increment and initialized_cpus exactly the cores past the line-169
increment — each core contributes at most once per boot attempt, and both
increments happen under init_lock by construction of the step relation;
both counters never exceed the online core count n; both are monotone; and
once a counter has reached n it stays at n, so the busy-wait conditions
entered_cpus < n (line 241) and initialized_cpus < n (line 258) are then
permanently false and every waiter is released within the same attempt. -/
theorem counters_protocol (n : Nat) (s : St n) (hn : n ≤ INVALID_CPU_ID)
    (hr : Reachable n s) :
    s.entered_cpus = (Finset.univ.filter fun i =>
      (s.cores i).loc.past_inc = true).card ∧
    s.initialized_cpus = (Finset.univ.filter fun i =>
      (s.cores i).inited = true).card ∧
    s.entered_cpus ≤ n ∧ s.initialized_cpus ≤ n ∧
    (∀ s' : St n, ReachFrom s s' →
      s.entered_cpus ≤ s'.entered_cpus ∧
      s.initialized_cpus ≤ s'.initialized_cpus ∧
      (s.entered_cpus = n → s'.entered_cpus = n) ∧
      (s.initialized_cpus = n → s'.initialized_cpus = n)) := by
  have h := inv_reachable hn hr
  refine ⟨h.entered_eq, h.inited_eq, (counters_le h).1, (counters_le h).2, ?_⟩
  intro s' hp
  have hm := reach_from_counters_mono hp
  have h' := inv_reachable hn (reachable_trans hr hp)
  refine ⟨hm.1, hm.2, ?_, ?_⟩
  · intro heq
    have hb := (counters_le h').1
    omega
  · intro heq
    have hb := (counters_le h').2
    omega

/-- Witness for C5: in the final state of the successful one-core run both
counters are bounded by the core count and stay at it. -/
theorem counters_protocol_witness :
    a13.entered_cpus ≤ 1 ∧ a13.initialized_cpus ≤ 1 ∧ a13.entered_cpus = 1 := by
  have h := counters_protocol 1 a13 (by decide) reach_a13
  exact ⟨h.2.2.1, h.2.2.2.1, by decide⟩

/-- Claim C10.  init_early stores master_cpu_id = cpu_id as its first
shared-state write (line 41, under the same lock as the election check), so
whenever a core has entered init_early (its master flag is set), the
master slot holds that core's id and differs from INVALID_CPU_ID, no other
core is master, and only the master can be inside init_early; these facts
hold in every reachable state, in particular after init_early has failed
(error non-zero), so no second core can ever pass the election check within
the same boot attempt. -/
theorem master_id_claimed_first (n : Nat) (s : St n)
    (hn : n ≤ INVALID_CPU_ID) (hr : Reachable n s) :
    (∀ i, (s.cores i).master = true →
      s.master_cpu_id = i.val ∧ s.master_cpu_id ≠ INVALID_CPU_ID ∧
      ∀ j, (s.cores j).master = true → j = i) ∧
    (∀ i, (s.cores i).loc = Loc.earlyStep → (s.cores i).master = true) ∧
    (∀ i, (s.cores i).loc.past_elect = true →
      s.master_cpu_id ≠ INVALID_CPU_ID) := by
  have h := inv_reachable hn hr
  refine ⟨?_, ?_, h.past_elect_master⟩
  · intro i hi
    refine ⟨h.master_id i hi, ?_, fun j hj => master_unique h hj hi⟩
    rw [h.master_id i hi]
    have hlt := i.isLt
    omega
  · intro i hc
    exact (h.early_inv i hc).1

/-- Witness for C10: in the failing run, right after init_early failed with
error -22, the master slot still holds core 0's id, not the sentinel. -/
theorem master_id_claimed_first_witness :
    b5.error ≠ 0 ∧ b5.master_cpu_id = (0 : Fin 1).val ∧
    b5.master_cpu_id ≠ INVALID_CPU_ID := by
  have h := (master_id_claimed_first 1 b5 (by decide) reach_b5).1 0 (by decide)
  exact ⟨by decide, h.1, h.2.1⟩

end Jailhouse
